import Mathlib

/-!
Verification development for the handwrite-obsidian plugin core:
template rendering (`src/template/renderer.ts`), tag merging and per-file
processing (`src/processor/fileProcessor.ts`), batch work-queue
(`processBatch`), and the Gemini client's JSON response parsing
(`src/gemini/client.ts`).

JavaScript strings are modelled as Lean `String`/`List Char`; JavaScript
values that the code treats as `any` are modelled by the inductive `JVal`.
Thrown JavaScript values are modelled by `JsThrown`.
-/

namespace Handwrite

/-- A loosely-typed JavaScript value, as used for extracted variables
(`Record<string, any>`).  Objects are insertion-ordered association lists,
mirroring JS property order. -/
inductive JVal where
  | str (s : String)
  | num (n : Int)
  | bool (b : Bool)
  | null
  | arr (l : List JVal)
  | obj (fields : List (String × JVal))

/-- JS whitespace characters relevant to `\s` and `trim` for the inputs in
this development (ASCII subset of the full Unicode class). -/
def isJsWs (c : Char) : Bool :=
  c == ' ' || c == '\t' || c == '\n' || c == '\r'

/-- `s.trim()` restricted to the ASCII whitespace the inputs contain. -/
def jsTrim (s : String) : String :=
  ⟨((s.data.dropWhile isJsWs).reverse.dropWhile isJsWs).reverse⟩

/-- ASCII lowercasing of one character, as `toLowerCase` acts on the
extension strings this plugin compares. -/
def charLowerAscii (c : Char) : Char :=
  if 'A' ≤ c ∧ c ≤ 'Z' then Char.ofNat (c.toNat + 32) else c

/-- `s.toLowerCase()` over the ASCII range. -/
def jsToLower (s : String) : String :=
  ⟨s.data.map charLowerAscii⟩

mutual

/-- Models JavaScript `String(value)` (the conversion applied by the
renderer's `String(value)` and template literals): strings pass through,
numbers print, arrays join their converted elements with commas
(`Array.prototype.toString`), `null` inside an array becomes the empty
string, and plain objects become `"[object Object]"`. -/
def jsString : JVal → String
  | .str s => s
  | .num n => toString n
  | .bool b => if b then "true" else "false"
  | .null => "null"
  | .arr l => jsStringElems l
  | .obj _ => "[object Object]"
termination_by structural v => v

/-- Comma-joined element conversion used by `Array.prototype.toString`;
a `null` element renders as the empty string. -/
def jsStringElems : List JVal → String
  | [] => ""
  | [JVal.null] => ""
  | [x] => jsString x
  | JVal.null :: xs => "," ++ jsStringElems xs
  | x :: xs => jsString x ++ "," ++ jsStringElems xs
termination_by structural l => l

end

/-- First-occurrence-preserving update of an association list: models both
`Map.prototype.set` (existing key keeps its position, value replaced) and a
JS object-spread override. -/
def assocSet {β : Type} (m : List (String × β)) (k : String) (v : β) :
    List (String × β) :=
  if m.any (fun kv => kv.1 = k) then
    m.map (fun kv => if kv.1 = k then (k, v) else kv)
  else m ++ [(k, v)]

/-- Lookup in an association list (first match). -/
def assocLookup {β : Type} (m : List (String × β)) (k : String) : Option β :=
  (m.find? (fun kv => kv.1 = k)).map (·.2)

/-! ## Template-token scanning

The renderer uses `String.prototype.replace` with global regexes of the
fixed shape `\{\{\s*\.?KEY\s*\}\}` (and two variants).  We model each such
replace as a left-to-right scan that, at every position, attempts the
pattern and on success consumes the match and emits the replacement, which
is exactly the leftmost, non-overlapping global-replace semantics for these
backtracking-free patterns.  Keys are matched literally; every key used by
the program is a plain identifier (no regex metacharacters), for which
literal matching coincides with the constructed regex.  Replacement strings
are spliced literally; no input in this development contains `$`-sequences. -/

/-- Attempt to match `\s*\.?KEY\s*\}\}` at the head of `l` (the part of a
`{{…}}` token after its opening braces); returns the rest of the input
after the token. -/
def matchTokenAfterBraces (key : List Char) (l : List Char) :
    Option (List Char) :=
  let r1 := l.dropWhile isJsWs
  let r2 := match r1 with
    | '.' :: t => t
    | _ => r1
  if key.isPrefixOf r2 then
    match (r2.drop key.length).dropWhile isJsWs with
    | '\x7d' :: '\x7d' :: rem => some rem
    | _ => none
  else none

/-- Attempt to match the full token `\{\{\s*\.?KEY\s*\}\}` at the head of
`l`. -/
def matchToken (key : List Char) : List Char → Option (List Char)
  | '\x7b' :: '\x7b' :: rest => matchTokenAfterBraces key rest
  | _ => none

/-- Generic global-replace scanner: `m` tries to match at the current
position and returns the replacement text and the remainder after the
match.  `fuel` bounds the scan; every caller passes at least the input
length plus one, and every matcher consumes at least one character, so the
fuel never runs out on the call sites below. -/
def scanReplaceAux (m : List Char → Option (List Char × List Char)) :
    Nat → List Char → List Char
  | 0, l => l
  | _ + 1, [] => []
  | fuel + 1, c :: rest =>
    match m (c :: rest) with
    | some (rep, rem) => rep ++ scanReplaceAux m fuel rem
    | none => c :: scanReplaceAux m fuel rest

/-- `result.replace(new RegExp("\\{\\{\\s*\\.?" + key + "\\s*\\}\\}", "g"),
repl)`. -/
def replaceToken (key repl : String) (s : String) : String :=
  ⟨scanReplaceAux
    (fun l => (matchToken key.data l).map (fun rem => (repl.data, rem)))
    (s.data.length + 1) s.data⟩

/-- Literal global substring replace, for
`content.replace(/\{\{/g, '\\{\\{')` and its `}}` twin. -/
def replaceSub (pat repl : String) (s : String) : String :=
  ⟨scanReplaceAux
    (fun l => if pat.data ≠ [] ∧ pat.data.isPrefixOf l then
        some (repl.data, l.drop pat.data.length)
      else none)
    (s.data.length + 1) s.data⟩

/-! ## Template renderer (`src/template/renderer.ts`) -/

/-- The renderer's note context (`TemplateData`).  Field order mirrors the
object-literal insertion order produced by `createTemplateData`, which is
the order `Object.entries` enumerates in the scalar-substitution pass. -/
structure TemplateData where
  content : String
  tags : List String
  filename : String
  absoluteFilePath : String
  relativeFilePath : String
  markdownLink : String
  dateProcessed : String
  pageCount : Int
  modelUsed : String
  customVariables : List (String × JVal)

/-- `content.replace(/\{\{/g, '\\{\\{').replace(/\}\}/g, '\\}\\}')`. -/
def escapeContent (s : String) : String :=
  replaceSub "\x7d\x7d" "\\\x7d\\\x7d" (replaceSub "\x7b\x7b" "\\\x7b\\\x7b" s)

/-- YAML block sequence: one `  - item` line per element, newline-joined. -/
def yamlBlock (items : List String) : String :=
  String.intercalate "\n" (items.map (fun it => "  - " ++ it))

/-- Matcher for `/tags:\s*\{\{\s*\.?tags\s*\}\}/g` (the empty-tags branch). -/
def matchTagsEmptyPattern (l : List Char) : Option (List Char) :=
  if "tags:".data.isPrefixOf l then
    matchToken "tags".data ((l.drop 5).dropWhile isJsWs)
  else none

/-- `result.replace(/tags:\s*\{\{\s*\.?tags\s*\}\}/g, 'tags: []')`. -/
def replaceTagsEmpty (s : String) : String :=
  ⟨scanReplaceAux
    (fun l => (matchTagsEmptyPattern l).map (fun rem => ("tags: []".data, rem)))
    (s.data.length + 1) s.data⟩

/-- JS `\w` word characters. -/
def isWordChar (c : Char) : Bool :=
  ('a' ≤ c && c ≤ 'z') || ('A' ≤ c && c ≤ 'Z') || ('0' ≤ c && c ≤ '9') || c == '_'

/-- Matcher for `(\w+):\s*\{\{\s*\.?KEY\s*\}\}`: returns the captured word
and the remainder after the whole match. -/
def matchArrayFieldPattern (key : List Char) (l : List Char) :
    Option (List Char × List Char) :=
  let w := l.takeWhile isWordChar
  if w ≠ [] then
    match l.drop w.length with
    | ':' :: afterColon =>
      (matchToken key (afterColon.dropWhile isJsWs)).map (fun rem => (w, rem))
    | _ => none
  else none

/-- `result.replace(new RegExp("(\\w+):\\s*\\{\\{\\s*\\.?" + key +
"\\s*\\}\\}", "g"), replacementOfCapture)` where the replacement uses `$1`. -/
def replaceArrayField (key : String) (replOfWord : String → String)
    (s : String) : String :=
  ⟨scanReplaceAux
    (fun l => (matchArrayFieldPattern key.data l).map
      (fun wr => ((replOfWord ⟨wr.1⟩).data, wr.2)))
    (s.data.length + 1) s.data⟩

/-- `TemplateRenderer.renderTemplate`, translated pass for pass:
1. copy the data with the `content` field's `{{`/`}}` escaped;
2. substitute every scalar (string/number) field's token, in entry order
   (`tags` and `customVariables` are skipped by the `typeof` test);
3. for every custom variable, substitute `{{customVariables.key}}` and bare
   `{{key}}` with `String(value)` — unconditionally, for every value type;
4. `tags` array handling: the note context's `tags` field is always an
   array (the `|| data.customVariables.tags` fallback never fires because a
   JS array, even empty, is truthy), so a non-empty list replaces the tags
   token with a newline plus a YAML block, and an empty list rewrites the
   `tags: {{tags}}` field pattern to `tags: []`;
5. for every custom variable that is an array (other than `tags`), rewrite
   the `(\w+): {{key}}` field pattern to a YAML block or `[]`. -/
def renderTemplate (template : String) (data : TemplateData) : String :=
  let escaped := escapeContent data.content
  let r := replaceToken "content" escaped template
  let r := replaceToken "filename" data.filename r
  let r := replaceToken "absoluteFilePath" data.absoluteFilePath r
  let r := replaceToken "relativeFilePath" data.relativeFilePath r
  let r := replaceToken "markdownLink" data.markdownLink r
  let r := replaceToken "dateProcessed" data.dateProcessed r
  let r := replaceToken "pageCount" (toString data.pageCount) r
  let r := replaceToken "modelUsed" data.modelUsed r
  let r := data.customVariables.foldl (fun acc kv =>
    replaceToken kv.1 (jsString kv.2)
      (replaceToken ("customVariables." ++ kv.1) (jsString kv.2) acc)) r
  let r :=
    if data.tags.length > 0 then
      replaceToken "tags" ("\n" ++ yamlBlock data.tags) r
    else
      replaceTagsEmpty r
  data.customVariables.foldl (fun acc kv =>
    match kv.2 with
    | .arr l =>
      if kv.1 ≠ "tags" then
        if l.length > 0 then
          replaceArrayField kv.1
            (fun w => w ++ ":\n" ++ yamlBlock (l.map jsString)) acc
        else
          replaceArrayField kv.1 (fun w => w ++ ": []") acc
      else acc
    | _ => acc) r

/-! ## Tag merge (`FileProcessor.mergeTagsWithDefaults`) -/

/-- The loop `for (const tag of tags) { if (typeof tag === 'string' &&
tag.trim() && !allTags.includes(tag)) allTags.push(tag); }`. -/
def mergeTagLoop (allTags : List String) : List JVal → List String
  | [] => allTags
  | t :: ts =>
    match t with
    | .str s =>
      if jsTrim s ≠ "" ∧ s ∉ allTags then mergeTagLoop (allTags ++ [s]) ts
      else mergeTagLoop allTags ts
    | _ => mergeTagLoop allTags ts

/-- `Array.isArray` / `typeof === 'string'` normalization of the untyped
`extractedTags` argument: an array keeps its elements, a bare string
becomes a one-element array, anything else becomes empty. -/
def normalizeTags : JVal → List JVal
  | .arr l => l
  | .str s => [.str s]
  | _ => []

/-- `FileProcessor.mergeTagsWithDefaults(extractedTags)`, with the
`this.settings.defaultTags` dependency passed explicitly. -/
def mergeTagsWithDefaults (defaultTags : List String) (extractedTags : JVal) :
    List String :=
  mergeTagLoop defaultTags (normalizeTags extractedTags)

/-! ## Filename rendering and template-data assembly

`generateFilename` and `createTemplateData` both read the wall clock
(`new Date()`).  The clock is modelled as an explicit `JsDate` argument
carrying exactly the two projections the code uses. -/

/-- The projections of `new Date()` the renderer consumes: the ISO string
(`toISOString`) and the whole seconds elapsed since local midnight. -/
structure JsDate where
  iso : String
  secondsSinceMidnight : Nat
deriving DecidableEq, Repr

/-- Digit for `Number.prototype.toString(36)`. -/
def base36Digit (n : Nat) : Char :=
  if n < 10 then Char.ofNat (48 + n) else Char.ofNat (87 + n)

/-- Fueled base-36 conversion helper. -/
def natToBase36Aux : Nat → Nat → List Char
  | 0, _ => []
  | fuel + 1, n =>
    if n < 36 then [base36Digit n]
    else natToBase36Aux fuel (n / 36) ++ [base36Digit (n % 36)]

/-- `n.toString(36)` for a natural number. -/
def natToBase36 (n : Nat) : String := ⟨natToBase36Aux (n + 1) n⟩

/-- `originalFilename.replace(/\.[^.]+$/, '')` and
`originalFilename.match(/\.[^.]+$/)?.[0] || ''`: the regex matches the last
dot when at least one non-dot character follows it and no later dot
exists. -/
def splitExtension (originalFilename : String) : String × String :=
  match (originalFilename.data.reverse.findIdx? (· == '.')) with
  | some k =>
    let len := originalFilename.data.length
    let dotIdx := len - 1 - k
    if dotIdx + 1 < len then
      (⟨originalFilename.data.take dotIdx⟩, ⟨originalFilename.data.drop dotIdx⟩)
    else (originalFilename, "")
  | none => (originalFilename, "")

/-- `TemplateRenderer.generateFilename`: builds the `FilenameData` object
(base name, extension, original name, ISO timestamp, base-36
seconds-since-midnight, then all custom variables spread in, overriding on
name collision), and substitutes every `{{key}}` token with `String(value)`
in entry order. -/
def generateFilename (template originalFilename : String)
    (customVars : List (String × JVal)) (now : JsDate) : String :=
  let base := splitExtension originalFilename
  let builtins : List (String × JVal) :=
    [("baseName", .str base.1), ("extension", .str base.2),
     ("originalFilename", .str originalFilename),
     ("dateProcessed", .str now.iso),
     ("secondsBase36", .str (natToBase36 now.secondsSinceMidnight))]
  let entries := customVars.foldl (fun acc kv => assocSet acc kv.1 kv.2) builtins
  entries.foldl (fun acc kv => replaceToken kv.1 (jsString kv.2) acc) template

/-- `TemplateRenderer.createTemplateData`: merges custom and extracted
variables (extracted wins on collision) and stamps the processing time. -/
def createTemplateData (content : String) (tags : List String)
    (filename filePath markdownLink : String) (pageCount : Int)
    (modelUsed : String) (customVars extractedVars : List (String × JVal))
    (now : JsDate) : TemplateData :=
  { content := content
    tags := tags
    filename := filename
    absoluteFilePath := filePath
    relativeFilePath := filePath
    markdownLink := markdownLink
    dateProcessed := now.iso
    pageCount := pageCount
    modelUsed := modelUsed
    customVariables :=
      extractedVars.foldl (fun acc kv => assocSet acc kv.1 kv.2) customVars }

/-! ## Gemini client response parsing (`src/gemini/client.ts`)

`JSON.parse` is a host-library function; it is modelled below as a
recursive-descent parser for the JSON fragment the plugin exchanges
(objects, arrays, strings with the standard escapes, integer numbers,
`true`/`false`/`null`).  Duplicate object keys keep the last value, as in
JavaScript.  Non-integer numbers are outside the modelled fragment; no
claim in this development exercises them. -/

/-- JS `indexOf(pattern, fromIndex)` for a non-empty pattern, as an
`Option`al absolute index. -/
def jsIndexOfFromAux (pat : List Char) : Nat → List Char → Nat → Option Nat
  | 0, _, _ => none
  | fuel + 1, l, i =>
    if pat.isPrefixOf l then some i
    else
      match l with
      | [] => none
      | _ :: t => jsIndexOfFromAux pat fuel t (i + 1)

/-- `s.indexOf(pat, start)` (None for JS's `-1`). -/
def jsIndexOfFrom (s pat : String) (start : Nat) : Option Nat :=
  jsIndexOfFromAux pat.data (s.data.length + 1) (s.data.drop start) start

/-- `s.substring(a, b)` for `a ≤ b`. -/
def jsSubstring (s : String) (a b : Nat) : String :=
  ⟨(s.data.take b).drop a⟩

/-- The fenced-code-block extraction step of `parseJSONResponse`: when the
text contains ` ```json `, take the span from just after the first such
marker to the next ` ``` ` and trim it (falling back to the whole text when
no closing marker follows); otherwise the same with a plain ` ``` `
marker; otherwise the whole text.  The source's `end > 0` guard is always
satisfied when a closing marker is found, because the search starts at
index at least 3. -/
def fenceSlice (t : String) : String :=
  match jsIndexOfFrom t "```json" 0 with
  | some i =>
    match jsIndexOfFrom t "```" (i + 7) with
    | some e => jsTrim (jsSubstring t (i + 7) e)
    | none => t
  | none =>
    match jsIndexOfFrom t "```" 0 with
    | some i =>
      match jsIndexOfFrom t "```" (i + 3) with
      | some e => jsTrim (jsSubstring t (i + 3) e)
      | none => t
    | none => t

/-- The `jsonStr.indexOf('{') … jsonStr.lastIndexOf('}')` slicing step:
keep the span from the first `{` through the last `}` when the first
strictly precedes the last, otherwise leave the string unchanged. -/
def braceSlice (s : String) : String :=
  match s.data.findIdx? (· == '\x7b'),
        (s.data.reverse.findIdx? (· == '\x7d')).map
          (fun k => s.data.length - 1 - k) with
  | some i, some j => if i < j then jsSubstring s i (j + 1) else s
  | _, _ => s

/-- Decode one JSON string-body escape; returns the decoded character and
the remainder. -/
def decodeEscape : List Char → Option (Char × List Char)
  | '"' :: r => some ('"', r)
  | '\\' :: r => some ('\\', r)
  | '/' :: r => some ('/', r)
  | 'b' :: r => some ('\x08', r)
  | 'f' :: r => some ('\x0c', r)
  | 'n' :: r => some ('\n', r)
  | 'r' :: r => some ('\r', r)
  | 't' :: r => some ('\t', r)
  | 'u' :: h1 :: h2 :: h3 :: h4 :: r =>
    let hex? := fun (c : Char) =>
      if '0' ≤ c ∧ c ≤ '9' then some (c.toNat - 48)
      else if 'a' ≤ c ∧ c ≤ 'f' then some (c.toNat - 87)
      else if 'A' ≤ c ∧ c ≤ 'F' then some (c.toNat - 55)
      else none
    match hex? h1, hex? h2, hex? h3, hex? h4 with
    | some a, some b, some c, some d =>
      some (Char.ofNat (((a * 16 + b) * 16 + c) * 16 + d), r)
    | _, _, _, _ => none
  | _ => none

/-- Parse the body of a JSON string after its opening quote. -/
def parseStrBody : Nat → List Char → Option (List Char × List Char)
  | 0, _ => none
  | fuel + 1, l =>
    match l with
    | [] => none
    | '"' :: r => some ([], r)
    | '\\' :: r =>
      match decodeEscape r with
      | some (c, r') =>
        (parseStrBody fuel r').map (fun p => (c :: p.1, p.2))
      | none => none
    | c :: r =>
      if c.toNat < 32 then none
      else (parseStrBody fuel r).map (fun p => (c :: p.1, p.2))

/-- Parse a JSON integer literal (sign, digits, no leading zeros, and no
fraction/exponent — the modelled fragment). -/
def parseIntLit (l : List Char) : Option (Int × List Char) :=
  let core := fun (m : List Char) (neg : Bool) =>
    let ds := m.takeWhile (fun c => '0' ≤ c && c ≤ '9')
    if ds = [] then none
    else if ds.length > 1 ∧ ds.headD '0' = '0' then none
    else
      match m.drop ds.length with
      | '.' :: _ => none
      | 'e' :: _ => none
      | 'E' :: _ => none
      | rest =>
        let v : Int := Int.ofNat (ds.foldl (fun a c => a * 10 + (c.toNat - 48)) 0)
        some (if neg then -v else v, rest)
  match l with
  | '-' :: m => core m true
  | m => core m false

mutual

/-- Parse one JSON value, leading whitespace allowed. -/
def parseVal : Nat → List Char → Option (JVal × List Char)
  | 0, _ => none
  | fuel + 1, l =>
    match l.dropWhile isJsWs with
    | '\x7b' :: r => parseObjFields fuel r []
    | '[' :: r => parseArrItems fuel r []
    | '"' :: r => (parseStrBody (r.length + 1) r).map (fun p => (.str ⟨p.1⟩, p.2))
    | 't' :: 'r' :: 'u' :: 'e' :: r => some (.bool true, r)
    | 'f' :: 'a' :: 'l' :: 's' :: 'e' :: r => some (.bool false, r)
    | 'n' :: 'u' :: 'l' :: 'l' :: r => some (.null, r)
    | m => (parseIntLit m).map (fun p => (.num p.1, p.2))

/-- Parse object members after `{` (with `acc` the fields so far;
duplicate keys overwrite, as JS property assignment does). -/
def parseObjFields : Nat → List Char → List (String × JVal) →
    Option (JVal × List Char)
  | 0, _, _ => none
  | fuel + 1, l, acc =>
    match l.dropWhile isJsWs with
    | '\x7d' :: r => some (.obj acc, r)
    | '"' :: r =>
      match parseStrBody (r.length + 1) r with
      | some (k, r1) =>
        match r1.dropWhile isJsWs with
        | ':' :: r2 =>
          match parseVal fuel r2 with
          | some (v, r3) =>
            let acc' := assocSet acc ⟨k⟩ v
            match r3.dropWhile isJsWs with
            | ',' :: r4 => parseObjFields fuel r4 acc'
            | '\x7d' :: r4 => some (.obj acc', r4)
            | _ => none
          | none => none
        | _ => none
      | none => none
    | _ => none

/-- Parse array items after `[`. -/
def parseArrItems : Nat → List Char → List JVal → Option (JVal × List Char)
  | 0, _, _ => none
  | fuel + 1, l, acc =>
    match l.dropWhile isJsWs with
    | ']' :: r => some (.arr acc, r)
    | m =>
      match parseVal fuel m with
      | some (v, r1) =>
        match r1.dropWhile isJsWs with
        | ',' :: r2 => parseArrItems fuel r2 (acc ++ [v])
        | ']' :: r2 => some (.arr (acc ++ [v]), r2)
        | _ => none
      | none => none

end

/-- `JSON.parse` over the modelled fragment: one value, then only trailing
whitespace. -/
def jsonParse (s : String) : Except String JVal :=
  match parseVal (2 * s.data.length + 8) s.data with
  | some (v, rest) =>
    if rest.dropWhile isJsWs = [] then .ok v
    else .error "Unexpected non-whitespace character after JSON data"
  | none => .error "Unexpected token in JSON"

/-- `GeminiClient.parseJSONResponse(text)`: throws `'No response text
received'` when the reply is absent or empty (`!text`), otherwise extracts
the fenced-block candidate, slices between the outermost braces, and
decodes. -/
def parseJSONResponse (text : Option String) : Except String JVal :=
  match text with
  | none => .error "No response text received"
  | some t =>
    if t = "" then .error "No response text received"
    else jsonParse (braceSlice (fenceSlice t))

/-- An `ExtractableVariable` declaration (name, declared type,
description). -/
structure ExtractableVariableM where
  name : String
  vtype : String
  description : String

/-- Result type of the client's structured extraction
(`StructuredResponse`).  Non-string `content` values are outside the
modelled scope (the TypeScript interface declares `content: string`). -/
structure StructuredResponseM where
  content : String
  extractedVariables : List (String × JVal)

/-- Projection of a parsed reply into a `StructuredResponse`:
`parsed.content || ''` for the content, and one entry per configured
variable whose name occurs in the parsed object (`variable.name in
parsed`). -/
def projectStructured (parsed : JVal) (vars : List ExtractableVariableM) :
    StructuredResponseM :=
  { content :=
      match parsed with
      | .obj fs =>
        match assocLookup fs "content" with
        | some (.str s) => s
        | _ => ""
      | _ => ""
    extractedVariables :=
      vars.foldl (fun acc v =>
        match parsed with
        | .obj fs =>
          match assocLookup fs v.name with
          | some value => acc ++ [(v.name, value)]
          | none => acc
        | _ => acc) [] }

/-- `GeminiClient.extractStructuredTextFromImage`, with the transport
abstracted to the reply text: parse the reply and project it; any raised
error is wrapped as `'Failed to process image: ' + String(error)` (the
parse errors are `Error` instances, whose string form is
`'Error: ' + message`). -/
def extractStructuredTextFromImage (replyText : Option String)
    (vars : List ExtractableVariableM) : Except String StructuredResponseM :=
  match parseJSONResponse replyText with
  | .ok parsed => .ok (projectStructured parsed vars)
  | .error m => .error ("Failed to process image: Error: " ++ m)

/-! ## Per-file processing (`FileProcessor.processFile`)

The vault, the Gemini transport and the file-move collaborator are
abstracted into a `FileIO` record giving the outcome of each awaited
sub-operation; a thrown JavaScript value is a `JsThrown`.  `processFile`'s
single `try`/`catch` then becomes the explicit propagation below, ending in
the `catch` clause's
`error instanceof Error ? error.message : 'Unknown error'`. -/

/-- A thrown JavaScript value: an `Error` instance carrying its `message`,
or any other value with its string conversion. -/
inductive JsThrown where
  | errObj (message : String)
  | other (asString : String)
deriving DecidableEq, Repr

/-- `error instanceof Error ? error.message : 'Unknown error'`. -/
def caughtMessage : JsThrown → String
  | .errObj m => m
  | .other _ => "Unknown error"

/-- Template-literal interpolation `${error}` (`String(error)`); an
`Error`'s string form is `name: message`, or just `Error` when the message
is empty. -/
def jsThrownToString : JsThrown → String
  | .errObj m => if m = "" then "Error" else "Error: " ++ m
  | .other s => s

/-- `error.message` as read by `moveSourceFile`'s rethrow; a non-`Error`
value has no `message` property, which interpolates as `undefined`. -/
def thrownMessageProp : JsThrown → String
  | .errObj m => m
  | .other _ => "undefined"

/-- `ProcessingResult` from `fileProcessor.ts`. -/
structure ProcessingResult where
  success : Bool
  filePath : Option String := none
  error : Option String := none
deriving DecidableEq, Repr

/-- Outcomes of the awaited collaborator operations for one file, in
program order: the binary read, the Gemini call-and-parse (before the
client's wrapping), the note creation, and the raw source-file move
(before `moveSourceFile`'s wrapping). -/
structure FileIO where
  readBinary : Except JsThrown Unit
  geminiRaw : Except JsThrown StructuredResponseM
  createNote : Except JsThrown String
  moveRaw : Except JsThrown Unit

/-- Settings fields `processFile` consults (`debugMode` only gates
logging, which has no effect on the result). -/
structure HandwriteSettingsM where
  moveFilesAfterProcessing : Bool
  debugMode : Bool
deriving DecidableEq, Repr

/-- `FileProcessor.isSupportedFile`. -/
def supportedExtensions : List String := ["pdf", "png", "jpg", "jpeg", "webp", "gif"]

/-- `supported.includes(extension.toLowerCase())`. -/
def isSupportedFile (extension : String) : Bool :=
  supportedExtensions.contains (jsToLower extension)

/-- The Gemini client's `catch`: wrap any raised value as
`Failed to process image: ${error}` (or `PDF` for the PDF entry point). -/
def geminiExtract (isPdf : Bool) (io : FileIO) :
    Except JsThrown StructuredResponseM :=
  match io.geminiRaw with
  | .ok r => .ok r
  | .error e => .error (.errObj
      ((if isPdf then "Failed to process PDF: " else "Failed to process image: ")
        ++ jsThrownToString e))

/-- `FileProcessor.moveSourceFile`'s `catch`: rethrow as
`Failed to move file: ${error.message}`. -/
def moveSourceFileWrapped (io : FileIO) : Except JsThrown Unit :=
  match io.moveRaw with
  | .ok _ => .ok ()
  | .error e => .error (.errObj ("Failed to move file: " ++ thrownMessageProp e))

/-- `FileProcessor.processFile`, step for step: unsupported extensions are
rejected before any collaborator call; empty trimmed content is a
failure (`!result.content || result.content.trim() === ''` is equivalent
to the trimmed content being empty); the source move runs only under the
move policy; every raised error is caught at the end and reduced to a
failed result via `caughtMessage`.  Totality of this function is the
model-level form of "processFile never throws to its caller". -/
def processFile (s : HandwriteSettingsM) (extension : String) (io : FileIO) :
    ProcessingResult :=
  let fileExt := jsToLower extension
  if ¬ isSupportedFile fileExt then
    { success := false, error := some ("Unsupported file type: " ++ fileExt) }
  else
    match io.readBinary with
    | .error e => { success := false, error := some (caughtMessage e) }
    | .ok _ =>
      match geminiExtract (fileExt = "pdf") io with
      | .error e => { success := false, error := some (caughtMessage e) }
      | .ok result =>
        if jsTrim result.content = "" then
          { success := false, error := some "No text extracted from file" }
        else
          match io.createNote with
          | .error e => { success := false, error := some (caughtMessage e) }
          | .ok outputPath =>
            if s.moveFilesAfterProcessing then
              match moveSourceFileWrapped io with
              | .error e => { success := false, error := some (caughtMessage e) }
              | .ok _ => { success := true, filePath := some outputPath }
            else { success := true, filePath := some outputPath }

/-! ## Batch processing (`FileProcessor.processBatch`)

JavaScript's cooperative scheduler runs code between awaited suspension
points atomically.  Each worker iteration in `processBatch` has two
suspension points: the `await this.processFile(file)` inside `processNext`,
and the worker loop's own `await processNext()`.  When the inner promise
settles, the tail of `processNext` (record the result, bump `completed`,
emit the post snapshot) runs as one microtask; resolving `processNext`'s
promise then schedules the worker's loop continuation (the queue re-check
and, if non-empty, the next pop with its pre-pop snapshot) as a separate,
later microtask — other workers' segments may run in between.
`processBatch` is therefore modelled as a state machine with one
synchronous startup segment (`afterStartup`) and two interleavable step
kinds: `finishWorker` (a `processNext` tail) and `loopWorker` (a worker
loop continuation).  The per-file outcome is abstracted as a function
`oc : TFile → ProcessingResult` (justified by the totality of `processFile`
above: processing never throws).

Each emitted `BatchProcessingProgress` snapshot is recorded in the trace
together with audit data observed at the instant of emission: the completed
count, the number of workers then awaiting a `processFile` promise (the
emitting worker, which is between awaits, is not counted), and the number
of worker promises started so far (`processing.size` — workers are added to
the `processing` set when their first synchronous segment suspends, and are
never removed, so the set's size is the number of started workers). -/

/-- An input file: `processBatch` consumes only `path` and `name`. -/
structure TFile where
  path : String
  name : String
deriving DecidableEq, Repr

/-- `BatchProcessingProgress` from `fileProcessor.ts`. -/
structure BatchProcessingProgress where
  current : Nat
  total : Nat
  currentFile : String
deriving DecidableEq, Repr

/-- One progress emission: the snapshot handed to the callback plus the
audit data observed at emission time. -/
structure ProgressEvent where
  snap : BatchProcessingProgress
  isPre : Bool
  completedAt : Nat
  inFlightAt : Nat
  startedAt : Nat
deriving DecidableEq, Repr

/-- A started worker is awaiting `processFile` on some file, or has run the
`processNext` tail for its file and is waiting for its loop continuation
(the re-check of the queue) to be scheduled, or has left its `while`
loop. -/
inductive WorkerPhase where
  | awaiting (f : TFile)
  | looping
  | done
deriving DecidableEq, Repr

/-- The shared mutable state of one `processBatch` call. -/
structure BatchState where
  queue : List TFile
  results : List (String × ProcessingResult)
  completed : Nat
  workers : List WorkerPhase
  trace : List ProgressEvent
  total : Nat
deriving DecidableEq, Repr

/-- The file a worker currently holds, if it is awaiting `processFile`. -/
def phaseFile : WorkerPhase → Option TFile
  | .awaiting f => some f
  | .looping => none
  | .done => none

/-- Files currently awaiting their `processFile` promise. -/
def inFlightFiles (ws : List WorkerPhase) : List TFile :=
  ws.filterMap phaseFile

/-- One worker's first synchronous segment: check `queue.length > 0`; if
non-empty, shift the head, emit the pre-pop snapshot (`current =
completed + processing.size`, with `processing.size` equal to the number
of previously started workers, since this worker is added to the set only
after this segment suspends), and block on `processFile`; otherwise the
worker completes immediately. -/
def workerStart (st : BatchState) : BatchState :=
  match st.queue with
  | [] => { st with workers := st.workers ++ [WorkerPhase.done] }
  | f :: rest =>
    { st with
      queue := rest
      trace := st.trace ++ [{
        snap := { current := st.completed + st.workers.length,
                  total := st.total, currentFile := f.name }
        isPre := true
        completedAt := st.completed
        inFlightAt := (inFlightFiles st.workers).length
        startedAt := st.workers.length }]
      workers := st.workers ++ [WorkerPhase.awaiting f] }

/-- The startup loop `for (let i = 0; i < Math.min(workers, files.length);
i++) …`, which runs wholly within one synchronous segment. -/
def startWorkers : Nat → BatchState → BatchState
  | 0, st => st
  | k + 1, st => startWorkers k (workerStart st)

/-- Number of loop iterations of the startup loop:
`Math.min(workers, files.length)` clamped below by the loop itself
(`i < negative` never holds). -/
def startedWorkerCount (workers : Int) (fileCount : Nat) : Nat :=
  min workers.toNat fileCount

/-- State at entry of `processBatch`, before any worker starts. -/
def initBatch (files : List TFile) : BatchState :=
  { queue := files, results := [], completed := 0, workers := [],
    trace := [], total := files.length }

/-- State when the synchronous part of `processBatch` reaches
`await Promise.all(processing)`: all workers started, none yet resumed. -/
def afterStartup (files : List TFile) (workers : Int) : BatchState :=
  startWorkers (startedWorkerCount workers files.length) (initBatch files)

/-- The `processNext` tail for worker `i`, run when its `processFile(f)`
promise settles: record the result under the file's path (`Map.set`), bump
`completed`, and emit the post-completion snapshot; the worker's loop
continuation is only scheduled, so the worker moves to `looping`. -/
def finishWorker (oc : TFile → ProcessingResult) (i : Nat) (f : TFile)
    (st : BatchState) : BatchState :=
  let completed' := st.completed + 1
  { st with
    results := assocSet st.results f.path (oc f)
    completed := completed'
    workers := st.workers.set i WorkerPhase.looping
    trace := st.trace ++ [{
      snap := { current := completed', total := st.total, currentFile := "" }
      isPre := false
      completedAt := completed'
      inFlightAt := (inFlightFiles st.workers).length - 1
      startedAt := st.workers.length }] }

/-- The worker loop continuation for worker `i`: re-check the queue, and
either pop the next file — emitting the pre-pop snapshot, where
`processing.size` is the full started-worker count — and await it, or
terminate. -/
def loopWorker (i : Nat) (st : BatchState) : BatchState :=
  match st.queue with
  | [] => { st with workers := st.workers.set i WorkerPhase.done }
  | g :: rest =>
    { st with
      queue := rest
      workers := st.workers.set i (WorkerPhase.awaiting g)
      trace := st.trace ++ [{
        snap := { current := st.completed + st.workers.length,
                  total := st.total, currentFile := g.name }
        isPre := true
        completedAt := st.completed
        inFlightAt := (inFlightFiles st.workers).length
        startedAt := st.workers.length }] }

/-- The event-loop step relation: any worker whose `processFile` promise
has settled may run its `processNext` tail, and any worker whose loop
continuation is pending may run it; steps of different workers interleave
arbitrarily. -/
inductive BatchStep (oc : TFile → ProcessingResult) :
    BatchState → BatchState → Prop where
  | finish (i : Nat) (f : TFile) (st : BatchState)
      (h : st.workers.get? i = some (WorkerPhase.awaiting f)) :
      BatchStep oc st (finishWorker oc i f st)
  | loop (i : Nat) (st : BatchState)
      (h : st.workers.get? i = some WorkerPhase.looping) :
      BatchStep oc st (loopWorker i st)

/-- Reachability under the event loop. -/
def BatchReach (oc : TFile → ProcessingResult) : BatchState → BatchState → Prop :=
  Relation.ReflTransGen (BatchStep oc)

/-- `Promise.all(processing)` settles exactly when every started worker's
promise has resolved. -/
def allFinished (st : BatchState) : Prop :=
  ∀ w ∈ st.workers, w = WorkerPhase.done

instance (st : BatchState) : Decidable (allFinished st) :=
  inferInstanceAs (Decidable (∀ w ∈ st.workers, w = WorkerPhase.done))

/-- The result map built by processing the files of `l` in order. -/
def buildResults (oc : TFile → ProcessingResult) (l : List TFile) :
    List (String × ProcessingResult) :=
  l.foldl (fun m f => assocSet m f.path (oc f)) []

/-- First-match lookup in the results map. -/
def lookupResult (m : List (String × ProcessingResult)) (p : String) :
    Option ProcessingResult :=
  (m.find? (fun kv => kv.1 = p)).map (·.2)

/-! ## Lemmas about association-list updates -/

theorem assocSet_map_fst_of_mem {β : Type} (m : List (String × β)) (k : String)
    (v : β) (h : m.any (fun kv => kv.1 = k) = true) :
    (assocSet m k v).map Prod.fst = m.map Prod.fst := by
  unfold assocSet
  rw [if_pos h, List.map_map]
  apply List.map_congr_left
  intro kv _
  by_cases hk : kv.1 = k
  · simp [hk]
  · simp [hk]

theorem assocSet_map_fst_of_not_mem {β : Type} (m : List (String × β))
    (k : String) (v : β) (h : ¬ m.any (fun kv => kv.1 = k) = true) :
    (assocSet m k v).map Prod.fst = m.map Prod.fst ++ [k] := by
  unfold assocSet
  rw [if_neg h, List.map_append]
  rfl

theorem any_fst_iff_mem {β : Type} (m : List (String × β)) (k : String) :
    m.any (fun kv => kv.1 = k) = true ↔ k ∈ m.map Prod.fst := by
  simp only [List.any_eq_true, decide_eq_true_eq, List.mem_map]

theorem mem_map_fst_assocSet {β : Type} (m : List (String × β)) (k p : String)
    (v : β) :
    p ∈ (assocSet m k v).map Prod.fst ↔ p ∈ m.map Prod.fst ∨ p = k := by
  by_cases h : m.any (fun kv => kv.1 = k) = true
  · rw [assocSet_map_fst_of_mem m k v h]
    constructor
    · exact Or.inl
    · rintro (hp | rfl)
      · exact hp
      · exact (any_fst_iff_mem m p).mp h
  · rw [assocSet_map_fst_of_not_mem m k v h]
    simp

theorem nodup_map_fst_assocSet {β : Type} (m : List (String × β)) (k : String)
    (v : β) (h : (m.map Prod.fst).Nodup) :
    ((assocSet m k v).map Prod.fst).Nodup := by
  by_cases hm : m.any (fun kv => kv.1 = k) = true
  · rw [assocSet_map_fst_of_mem m k v hm]; exact h
  · rw [assocSet_map_fst_of_not_mem m k v hm]
    refine List.Nodup.append h (List.nodup_singleton k) ?_
    intro p hp hpk
    rw [List.mem_singleton] at hpk
    subst hpk
    exact hm ((any_fst_iff_mem m p).mpr hp)

theorem find_map_replace {β : Type} (k : String) (v : β) :
    ∀ m : List (String × β),
    (m.map (fun kv => if kv.1 = k then (k, v) else kv)).find?
        (fun kv => kv.1 = k) =
      (m.find? (fun kv => kv.1 = k)).map (fun _ => (k, v)) := by
  intro m
  induction m with
  | nil => rfl
  | cons hd tl ih =>
    by_cases hhd : hd.1 = k
    · rw [List.map_cons, if_pos hhd,
        List.find?_cons_of_pos _ (by simp),
        List.find?_cons_of_pos _ (by simp [hhd])]
      rfl
    · rw [List.map_cons, if_neg hhd,
        List.find?_cons_of_neg _ (by simp [hhd]),
        List.find?_cons_of_neg _ (by simp [hhd])]
      exact ih

theorem find_assocSet_self {β : Type} (m : List (String × β)) (k : String)
    (v : β) :
    ((assocSet m k v).find? (fun kv => kv.1 = k)).map Prod.snd = some v := by
  by_cases hm : m.any (fun kv => kv.1 = k) = true
  · unfold assocSet
    rw [if_pos hm, find_map_replace]
    have hsome : (m.find? (fun kv => kv.1 = k)).isSome := by
      rw [List.find?_isSome]
      exact List.any_eq_true.mp hm
    obtain ⟨kv0, hkv0⟩ := Option.isSome_iff_exists.mp hsome
    rw [hkv0]
    rfl
  · unfold assocSet
    rw [if_neg hm, List.find?_append]
    rw [List.find?_eq_none.mpr, Option.none_or,
      List.find?_cons_of_pos _ (by simp)]
    · rfl
    · intro kv hkv
      simp only [decide_eq_true_eq]
      intro hk
      exact hm (List.any_eq_true.mpr ⟨kv, hkv, by simp [hk]⟩)

theorem find_map_replace_other {β : Type} (k p : String) (v : β)
    (hne : p ≠ k) :
    ∀ m : List (String × β),
    (m.map (fun kv => if kv.1 = k then (k, v) else kv)).find?
        (fun kv => kv.1 = p) =
      m.find? (fun kv => kv.1 = p) := by
  intro m
  induction m with
  | nil => rfl
  | cons hd tl ih =>
    by_cases hhd : hd.1 = k
    · rw [List.map_cons, if_pos hhd,
        List.find?_cons_of_neg _
          (by simp only [decide_eq_true_eq]; exact fun h => hne h.symm),
        List.find?_cons_of_neg _
          (by simp only [decide_eq_true_eq]; rw [hhd]
              exact fun h => hne h.symm)]
      exact ih
    · by_cases hp : hd.1 = p
      · rw [List.map_cons, if_neg hhd,
          List.find?_cons_of_pos _ (by simp [hp]),
          List.find?_cons_of_pos _ (by simp [hp])]
      · rw [List.map_cons, if_neg hhd,
          List.find?_cons_of_neg _ (by simp [hp]),
          List.find?_cons_of_neg _ (by simp [hp])]
        exact ih

theorem find_assocSet_other {β : Type} (m : List (String × β)) (k p : String)
    (v : β) (hne : p ≠ k) :
    ((assocSet m k v).find? (fun kv => kv.1 = p)) =
      m.find? (fun kv => kv.1 = p) := by
  by_cases hm : m.any (fun kv => kv.1 = k) = true
  · unfold assocSet
    rw [if_pos hm]
    exact find_map_replace_other k p v hne m
  · unfold assocSet
    rw [if_neg hm, List.find?_append,
      List.find?_cons_of_neg _
        (by simp only [decide_eq_true_eq]; exact fun h => hne h.symm)]
    cases hf : m.find? (fun kv => kv.1 = p) <;> rfl

/-! ## Lemmas about the accumulated result map -/

theorem buildResults_concat (oc : TFile → ProcessingResult) (l : List TFile)
    (f : TFile) :
    buildResults oc (l ++ [f]) = assocSet (buildResults oc l) f.path (oc f) := by
  unfold buildResults
  rw [List.foldl_append]
  rfl

theorem mem_keys_foldl (oc : TFile → ProcessingResult) :
    ∀ (l : List TFile) (acc : List (String × ProcessingResult)) (p : String),
    p ∈ ((l.foldl (fun m f => assocSet m f.path (oc f)) acc).map Prod.fst) ↔
      p ∈ acc.map Prod.fst ∨ p ∈ l.map TFile.path := by
  intro l
  induction l with
  | nil => simp
  | cons hd tl ih =>
    intro acc p
    simp only [List.foldl_cons, List.map_cons, List.mem_cons]
    rw [ih, mem_map_fst_assocSet]
    tauto

theorem mem_keys_buildResults (oc : TFile → ProcessingResult) (l : List TFile)
    (p : String) :
    p ∈ (buildResults oc l).map Prod.fst ↔ p ∈ l.map TFile.path := by
  unfold buildResults
  rw [mem_keys_foldl]
  simp

theorem nodup_keys_foldl (oc : TFile → ProcessingResult) :
    ∀ (l : List TFile) (acc : List (String × ProcessingResult)),
    (acc.map Prod.fst).Nodup →
    ((l.foldl (fun m f => assocSet m f.path (oc f)) acc).map Prod.fst).Nodup := by
  intro l
  induction l with
  | nil => intro acc h; exact h
  | cons hd tl ih =>
    intro acc h
    exact ih _ (nodup_map_fst_assocSet acc hd.path (oc hd) h)

theorem nodup_keys_buildResults (oc : TFile → ProcessingResult)
    (l : List TFile) : ((buildResults oc l).map Prod.fst).Nodup :=
  nodup_keys_foldl oc l [] List.nodup_nil

theorem lookup_foldl_of_not_mem (oc : TFile → ProcessingResult) :
    ∀ (l : List TFile) (acc : List (String × ProcessingResult)) (p : String),
    p ∉ l.map TFile.path →
    lookupResult (l.foldl (fun m f => assocSet m f.path (oc f)) acc) p =
      lookupResult acc p := by
  intro l
  induction l with
  | nil => intro acc p _; rfl
  | cons hd tl ih =>
    intro acc p hp
    simp only [List.map_cons, List.mem_cons] at hp
    push_neg at hp
    simp only [List.foldl_cons]
    rw [ih _ p hp.2]
    unfold lookupResult
    rw [find_assocSet_other _ _ _ _ hp.1]

theorem lookup_foldl_mem (oc : TFile → ProcessingResult) :
    ∀ (l : List TFile) (acc : List (String × ProcessingResult)) (f : TFile),
    f ∈ l → (l.map TFile.path).Nodup →
    lookupResult (l.foldl (fun m f => assocSet m f.path (oc f)) acc) f.path =
      some (oc f) := by
  intro l
  induction l with
  | nil => intro acc f h; cases h
  | cons hd tl ih =>
    intro acc f hf hnd
    simp only [List.map_cons, List.nodup_cons] at hnd
    rcases List.mem_cons.mp hf with rfl | hf'
    · simp only [List.foldl_cons]
      rw [lookup_foldl_of_not_mem oc tl _ f.path hnd.1]
      unfold lookupResult
      exact find_assocSet_self acc f.path (oc f)
    · simp only [List.foldl_cons]
      exact ih _ f hf' hnd.2

theorem lookup_buildResults (oc : TFile → ProcessingResult) (l : List TFile)
    (f : TFile) (hf : f ∈ l) (hnd : (l.map TFile.path).Nodup) :
    lookupResult (buildResults oc l) f.path = some (oc f) :=
  lookup_foldl_mem oc l [] f hf hnd

/-! ## Lemmas about worker phases -/

theorem inFlightFiles_all_done (ws : List WorkerPhase)
    (h : ∀ w ∈ ws, w = WorkerPhase.done) : inFlightFiles ws = [] := by
  apply List.filterMap_eq_nil_iff.mpr
  intro w hw
  rw [h w hw]
  rfl

theorem mem_inFlight_of_get? (ws : List WorkerPhase) (i : Nat) (f : TFile)
    (h : ws.get? i = some (WorkerPhase.awaiting f)) : f ∈ inFlightFiles ws := by
  induction ws generalizing i with
  | nil => cases h
  | cons hd tl ih =>
    cases i with
    | zero =>
      simp only [List.get?] at h
      cases h
      simp [inFlightFiles, phaseFile, List.filterMap_cons]
    | succ j =>
      simp only [List.get?] at h
      have := ih j h
      cases hd with
      | done => simpa [inFlightFiles, phaseFile, List.filterMap_cons] using this
      | looping =>
        simpa [inFlightFiles, phaseFile, List.filterMap_cons] using this
      | awaiting g =>
        simp only [inFlightFiles, phaseFile, List.filterMap_cons] at this ⊢
        exact List.mem_cons_of_mem g this

theorem inFlight_set_looping_perm (ws : List WorkerPhase) (i : Nat)
    (f : TFile) (h : ws.get? i = some (WorkerPhase.awaiting f)) :
    (inFlightFiles ws).Perm
      (f :: inFlightFiles (ws.set i WorkerPhase.looping)) := by
  induction ws generalizing i with
  | nil => cases h
  | cons hd tl ih =>
    cases i with
    | zero =>
      simp only [List.get?] at h
      cases h
      simp only [List.set]
      simp [inFlightFiles, phaseFile, List.filterMap_cons]
    | succ j =>
      simp only [List.get?] at h
      have hperm := ih j h
      simp only [List.set]
      cases hd with
      | done =>
        simpa [inFlightFiles, phaseFile, List.filterMap_cons] using hperm
      | looping =>
        simpa [inFlightFiles, phaseFile, List.filterMap_cons] using hperm
      | awaiting g =>
        simp only [inFlightFiles, phaseFile, List.filterMap_cons] at hperm ⊢
        exact (hperm.cons g).trans (List.Perm.swap f g _)

theorem inFlight_loop_awaiting_perm (ws : List WorkerPhase) (i : Nat)
    (g : TFile) (h : ws.get? i = some WorkerPhase.looping) :
    (inFlightFiles (ws.set i (WorkerPhase.awaiting g))).Perm
      (g :: inFlightFiles ws) := by
  induction ws generalizing i with
  | nil => cases h
  | cons hd tl ih =>
    cases i with
    | zero =>
      simp only [List.get?] at h
      cases h
      simp only [List.set]
      simp only [inFlightFiles, phaseFile, List.filterMap_cons]
      exact List.Perm.refl _
    | succ j =>
      simp only [List.get?] at h
      have hperm := ih j h
      simp only [List.set]
      cases hd with
      | done =>
        simpa [inFlightFiles, phaseFile, List.filterMap_cons] using hperm
      | looping =>
        simpa [inFlightFiles, phaseFile, List.filterMap_cons] using hperm
      | awaiting g' =>
        simp only [inFlightFiles, phaseFile, List.filterMap_cons] at hperm ⊢
        exact (hperm.cons g').trans (List.Perm.swap g g' _)

theorem inFlight_set_done_of_looping (ws : List WorkerPhase) (i : Nat)
    (h : ws.get? i = some WorkerPhase.looping) :
    inFlightFiles (ws.set i WorkerPhase.done) = inFlightFiles ws := by
  induction ws generalizing i with
  | nil => cases h
  | cons hd tl ih =>
    cases i with
    | zero =>
      simp only [List.get?] at h
      cases h
      simp [inFlightFiles, phaseFile, List.filterMap_cons]
    | succ j =>
      simp only [List.get?] at h
      have heq := ih j h
      simp only [List.set]
      cases hd with
      | done => simpa [inFlightFiles, phaseFile, List.filterMap_cons] using heq
      | looping =>
        simpa [inFlightFiles, phaseFile, List.filterMap_cons] using heq
      | awaiting g' =>
        simp only [inFlightFiles, phaseFile, List.filterMap_cons] at heq ⊢
        rw [heq]

theorem inFlight_length_lt_of_looping (ws : List WorkerPhase) (i : Nat)
    (h : ws.get? i = some WorkerPhase.looping) :
    (inFlightFiles ws).length < ws.length := by
  induction ws generalizing i with
  | nil => cases h
  | cons hd tl ih =>
    cases i with
    | zero =>
      simp only [List.get?] at h
      cases h
      simp only [inFlightFiles, phaseFile, List.filterMap_cons,
        List.length_cons]
      exact Nat.lt_succ_of_le (List.length_filterMap_le phaseFile tl)
    | succ j =>
      simp only [List.get?] at h
      have hlt := ih j h
      cases hd with
      | done =>
        simp only [inFlightFiles, phaseFile, List.filterMap_cons,
          List.length_cons] at hlt ⊢
        omega
      | looping =>
        simp only [inFlightFiles, phaseFile, List.filterMap_cons,
          List.length_cons] at hlt ⊢
        omega
      | awaiting g' =>
        simp only [inFlightFiles, phaseFile, List.filterMap_cons,
          List.length_cons] at hlt ⊢
        omega

theorem no_done_set (ws : List WorkerPhase) (i : Nat) (ph : WorkerPhase)
    (h : WorkerPhase.done ∉ ws) (hph : ph ≠ WorkerPhase.done) :
    WorkerPhase.done ∉ ws.set i ph := by
  intro hmem
  rcases List.mem_or_eq_of_mem_set hmem with hmem' | he
  · exact h hmem'
  · exact hph he.symm

/-! ## The batch invariant -/

/-- Soundness of one emitted progress event: the snapshot's total is the
file count; a pre-pop snapshot's `current` is the completed count plus the
number of workers started at emission time, which is at least the completed
count plus the in-flight count — with equality during the startup round,
and strictly more (at least `+ 1`) for pops by a resumed worker, which can
carry `current` past `total` when several completions interleave between
pops; a post-completion snapshot's `current` is the completed count, its
`currentFile` is empty, and it never exceeds the total. -/
def EventOK (total : Nat) (e : ProgressEvent) : Prop :=
  e.snap.total = total ∧
  (e.isPre = true →
    e.snap.current = e.completedAt + e.startedAt ∧
    (e.snap.current = e.completedAt + e.inFlightAt ∨
     e.completedAt + e.inFlightAt + 1 ≤ e.snap.current)) ∧
  (e.isPre = false →
    e.snap.current = e.completedAt ∧ e.snap.currentFile = "" ∧
    e.snap.current ≤ total)

/-- The state invariant of a `processBatch` run over `files` with `W`
started workers: some list `procd` of already-processed files partitions
the input together with the in-flight files and the queue; the results map
is exactly the processed files' outcomes; the completed counter counts
them; a non-empty queue means no worker has terminated; and every emitted
event is sound. -/
def ReachInv (files : List TFile) (oc : TFile → ProcessingResult) (W : Nat)
    (st : BatchState) : Prop :=
  ∃ procd : List TFile,
    (procd ++ inFlightFiles st.workers ++ st.queue).Perm files ∧
    st.results = buildResults oc procd ∧
    st.completed = procd.length ∧
    st.total = files.length ∧
    st.workers.length = W ∧
    (st.queue ≠ [] → WorkerPhase.done ∉ st.workers) ∧
    (∀ e ∈ st.trace, EventOK files.length e)

/-- Intermediate description of the startup loop after `j` workers have
been created. -/
def StartupOK (files : List TFile) (j : Nat) (st : BatchState) : Prop :=
  st.queue = files.drop j ∧
  st.results = [] ∧
  st.completed = 0 ∧
  st.total = files.length ∧
  st.workers = (files.take j).map WorkerPhase.awaiting ∧
  (∀ e ∈ st.trace, EventOK files.length e)

theorem inFlightFiles_map_awaiting (l : List TFile) :
    inFlightFiles (l.map WorkerPhase.awaiting) = l := by
  induction l with
  | nil => rfl
  | cons hd tl ih =>
    simp [inFlightFiles, phaseFile, List.filterMap_cons] at ih ⊢
    exact ih

theorem workerStart_startup (files : List TFile) (j : Nat) (st : BatchState)
    (h : StartupOK files j st) (hj : j < files.length) :
    StartupOK files (j + 1) (workerStart st) := by
  obtain ⟨hq, hr, hc, ht, hw, htr⟩ := h
  have hdrop : files.drop j = files[j] :: files.drop (j + 1) :=
    List.drop_eq_getElem_cons hj
  have htake : files.take (j + 1) = files.take j ++ [files[j]] := by
    rw [List.take_succ]
    have : files[j]? = some files[j] := List.getElem?_eq_getElem hj
    rw [this]
    rfl
  unfold workerStart
  rw [hq, hdrop]
  refine ⟨rfl, hr, hc, ht, ?_, ?_⟩
  · rw [hw, htake, List.map_append]
    rfl
  · intro e he
    rw [List.mem_append] at he
    rcases he with he | he
    · exact htr e he
    · rw [List.mem_singleton] at he
      subst he
      have hfl : (inFlightFiles st.workers).length = st.workers.length := by
        rw [hw, inFlightFiles_map_awaiting, List.length_map]
      refine ⟨ht, fun _ => ⟨rfl, Or.inl ?_⟩, fun hfalse => by cases hfalse⟩
      show st.completed + st.workers.length =
        st.completed + (inFlightFiles st.workers).length
      rw [hfl]

theorem startWorkers_startup (files : List TFile) :
    ∀ (k j : Nat) (st : BatchState), StartupOK files j st →
    j + k ≤ files.length → StartupOK files (j + k) (startWorkers k st) := by
  intro k
  induction k with
  | zero => intro j st h _; exact h
  | succ n ih =>
    intro j st h hle
    have hj : j < files.length := by omega
    have h1 := workerStart_startup files j st h hj
    have h2 := ih (j + 1) (workerStart st) h1 (by omega)
    have : j + 1 + n = j + (n + 1) := by omega
    rw [this] at h2
    exact h2

theorem afterStartup_startupOK (files : List TFile) (w : Int) :
    StartupOK files (startedWorkerCount w files.length)
      (afterStartup files w) := by
  have h0 : StartupOK files 0 (initBatch files) := by
    refine ⟨rfl, rfl, rfl, rfl, rfl, ?_⟩
    intro e he
    cases he
  have hle : 0 + startedWorkerCount w files.length ≤ files.length := by
    unfold startedWorkerCount
    omega
  have := startWorkers_startup files (startedWorkerCount w files.length) 0
    (initBatch files) h0 hle
  simpa using this

theorem afterStartup_inv (files : List TFile) (w : Int)
    (oc : TFile → ProcessingResult) :
    ReachInv files oc (startedWorkerCount w files.length)
      (afterStartup files w) := by
  obtain ⟨hq, hr, hc, ht, hw, htr⟩ := afterStartup_startupOK files w
  refine ⟨[], ?_, ?_, ?_, ht, ?_, ?_, htr⟩
  · rw [hq, hw, inFlightFiles_map_awaiting, List.nil_append,
      List.take_append_drop]
  · rw [hr]; rfl
  · rw [hc]; rfl
  · rw [hw, List.length_map, List.length_take]
    unfold startedWorkerCount
    omega
  · intro _
    rw [hw]
    intro hmem
    rw [List.mem_map] at hmem
    obtain ⟨x, _, hx⟩ := hmem
    cases hx

theorem perm_shift_mid {α : Type} (p D ifl q : List α) (f : α)
    (hp : ifl.Perm (f :: D)) :
    ((p ++ [f]) ++ D ++ q).Perm (p ++ ifl ++ q) := by
  rw [← Multiset.coe_eq_coe]
  have h1 := Multiset.coe_eq_coe.mpr hp
  simp only [← Multiset.coe_add, ← Multiset.cons_coe, ← Multiset.coe_singleton]
  simp only [← Multiset.cons_coe] at h1
  simp only [← Multiset.singleton_add] at h1 ⊢
  rw [h1]
  abel

theorem perm_pop_loop {α : Type} (p ifl ifg rest : List α) (g : α)
    (hg : ifg.Perm (g :: ifl)) :
    (p ++ ifg ++ rest).Perm (p ++ ifl ++ (g :: rest)) := by
  rw [← Multiset.coe_eq_coe]
  have h1 := Multiset.coe_eq_coe.mpr hg
  simp only [← Multiset.coe_add, ← Multiset.cons_coe, ← Multiset.coe_singleton]
  simp only [← Multiset.cons_coe] at h1
  simp only [← Multiset.singleton_add] at h1 ⊢
  rw [h1]
  abel

theorem batchStep_preserves (files : List TFile)
    (oc : TFile → ProcessingResult) (W : Nat) (st st' : BatchState)
    (hstep : BatchStep oc st st') (hinv : ReachInv files oc W st) :
    ReachInv files oc W st' := by
  obtain ⟨procd, hperm, hres, hcomp, htot, hwlen, hqd, htr⟩ := hinv
  cases hstep with
  | finish i f st h =>
    -- the processNext tail: record, bump completed, post snapshot
    have hperm_l := inFlight_set_looping_perm st.workers i f h
    have hfmem := mem_inFlight_of_get? st.workers i f h
    have hflen : 1 ≤ (inFlightFiles st.workers).length :=
      List.length_pos.mpr (List.ne_nil_of_mem hfmem)
    have hlenfiles : files.length =
        procd.length + (inFlightFiles st.workers).length + st.queue.length := by
      have hl := hperm.length_eq
      simp only [List.length_append] at hl
      omega
    have hres' : assocSet st.results f.path (oc f) =
        buildResults oc (procd ++ [f]) := by
      rw [hres, buildResults_concat]
    simp only [finishWorker]
    refine ⟨procd ++ [f], ?_, hres', ?_, htot, ?_, ?_, ?_⟩
    · exact (perm_shift_mid procd _ _ st.queue f hperm_l).trans hperm
    · rw [hcomp, List.length_append, List.length_singleton]
    · rw [List.length_set]
      exact hwlen
    · intro hne
      exact no_done_set st.workers i WorkerPhase.looping (hqd hne)
        (fun habs => by cases habs)
    · intro e he
      rw [List.mem_append] at he
      rcases he with he | he
      · exact htr e he
      · rw [List.mem_singleton] at he
        subst he
        refine ⟨htot, ?_, ?_⟩
        · intro hpre
          cases hpre
        · intro _
          refine ⟨rfl, rfl, ?_⟩
          show st.completed + 1 ≤ files.length
          omega
  | loop i st h =>
    -- the worker loop continuation: re-check the queue
    rcases hq : st.queue with _ | ⟨g, rest⟩
    · -- queue empty: the worker terminates
      simp only [loopWorker, hq]
      refine ⟨procd, ?_, hres, hcomp, htot, ?_, ?_, htr⟩
      · rw [inFlight_set_done_of_looping st.workers i h]
        rw [hq] at hperm
        exact hperm
      · rw [List.length_set]
        exact hwlen
      · intro hne
        exact absurd rfl hne
    · -- queue non-empty: pop the next file, pre snapshot, await it
      have hg := inFlight_loop_awaiting_perm st.workers i g h
      have hlt := inFlight_length_lt_of_looping st.workers i h
      rw [hq] at hperm
      simp only [loopWorker, hq]
      refine ⟨procd, ?_, hres, hcomp, htot, ?_, ?_, ?_⟩
      · exact (perm_pop_loop procd _ _ rest g hg).trans hperm
      · rw [List.length_set]
        exact hwlen
      · intro _
        exact no_done_set st.workers i (WorkerPhase.awaiting g)
          (hqd (by rw [hq]; simp)) (fun habs => by cases habs)
      · intro e he
        rw [List.mem_append] at he
        rcases he with he | he
        · exact htr e he
        · rw [List.mem_singleton] at he
          subst he
          refine ⟨htot, ?_, ?_⟩
          · intro _
            refine ⟨rfl, Or.inr ?_⟩
            show st.completed + (inFlightFiles st.workers).length + 1 ≤
              st.completed + st.workers.length
            omega
          · intro hpost
            cases hpost

theorem reach_inv (files : List TFile) (oc : TFile → ProcessingResult)
    (W : Nat) (st0 st : BatchState) (h0 : ReachInv files oc W st0)
    (hreach : BatchReach oc st0 st) : ReachInv files oc W st := by
  induction hreach with
  | refl => exact h0
  | tail _ hstep ih => exact batchStep_preserves files oc W _ _ hstep ih

theorem batch_reachable_inv (files : List TFile)
    (oc : TFile → ProcessingResult) (w : Int) (st : BatchState)
    (hreach : BatchReach oc (afterStartup files w) st) :
    ReachInv files oc (startedWorkerCount w files.length) st :=
  reach_inv files oc _ _ st (afterStartup_inv files w oc) hreach

/-- Facts about a settled batch (all worker promises resolved): the queue
is exhausted, the result map's keys are exactly the input paths with no
duplicates, and — when the input paths are distinct — each file's entry is
its own outcome. -/
theorem batch_final_facts (files : List TFile)
    (oc : TFile → ProcessingResult) (w : Int) (st : BatchState)
    (hw : 1 ≤ w) (hreach : BatchReach oc (afterStartup files w) st)
    (hfin : allFinished st) :
    st.queue = [] ∧
    (st.results.map Prod.fst).Nodup ∧
    (∀ p, p ∈ st.results.map Prod.fst ↔ p ∈ files.map TFile.path) ∧
    (∀ f ∈ files, (files.map TFile.path).Nodup →
      lookupResult st.results f.path = some (oc f)) := by
  obtain ⟨procd, hperm, hres, hcomp, htot, hwlen, hqd, htr⟩ :=
    batch_reachable_inv files oc w st hreach
  have hifn : inFlightFiles st.workers = [] :=
    inFlightFiles_all_done st.workers hfin
  have hqnil : st.queue = [] := by
    by_contra hne
    have hnd := hqd hne
    have hqpos : 0 < st.queue.length := List.length_pos.mpr hne
    have hlenf : files.length = procd.length + st.queue.length := by
      have hl := hperm.length_eq
      simp only [List.length_append, hifn, List.length_nil] at hl
      omega
    have hfpos : 0 < files.length := by omega
    have hWpos : 0 < startedWorkerCount w files.length := by
      unfold startedWorkerCount
      omega
    have hwpos : 0 < st.workers.length := by omega
    obtain ⟨x, hx⟩ := List.exists_mem_of_length_pos hwpos
    exact hnd ((hfin x hx) ▸ hx)
  have hpermf : procd.Perm files := by
    rw [hifn, hqnil] at hperm
    simpa using hperm
  refine ⟨hqnil, ?_, ?_, ?_⟩
  · rw [hres]
    exact nodup_keys_buildResults oc procd
  · intro p
    rw [hres, mem_keys_buildResults]
    exact (hpermf.map TFile.path).mem_iff
  · intro f hf hnodup
    rw [hres]
    refine lookup_buildResults oc procd f (hpermf.mem_iff.mpr hf) ?_
    exact ((hpermf.map TFile.path).nodup_iff).mpr hnodup

/-! ## Characterization of the tag merge -/

/-- Projection keeping only the string entries of the extracted tags. -/
def strOfJVal : JVal → Option String
  | .str s => some s
  | _ => none

/-- The tags the merge loop appends beyond the accumulator. -/
def newTags (acc : List String) : List JVal → List String
  | [] => []
  | t :: ts =>
    match t with
    | .str s =>
      if jsTrim s ≠ "" ∧ s ∉ acc then s :: newTags (acc ++ [s]) ts
      else newTags acc ts
    | _ => newTags acc ts

theorem mergeTagLoop_eq_append :
    ∀ (l : List JVal) (acc : List String),
    mergeTagLoop acc l = acc ++ newTags acc l := by
  intro l
  induction l with
  | nil => intro acc; simp [mergeTagLoop, newTags]
  | cons t ts ih =>
    intro acc
    cases t with
    | str s =>
      by_cases hc : jsTrim s ≠ "" ∧ s ∉ acc
      · simp only [mergeTagLoop, newTags, if_pos hc]
        rw [ih (acc ++ [s]), List.append_assoc]
        rfl
      · simp only [mergeTagLoop, newTags, if_neg hc]
        exact ih acc
    | num n => exact ih acc
    | bool b => exact ih acc
    | null => exact ih acc
    | arr l' => exact ih acc
    | obj fs => exact ih acc

theorem newTags_mem :
    ∀ (l : List JVal) (acc : List String) (t : String),
    t ∈ newTags acc l → t ∉ acc ∧ jsTrim t ≠ "" := by
  intro l
  induction l with
  | nil => intro acc t h; cases h
  | cons hd ts ih =>
    intro acc t h
    cases hd with
    | str s =>
      by_cases hc : jsTrim s ≠ "" ∧ s ∉ acc
      · rw [newTags, if_pos hc] at h
        rcases List.mem_cons.mp h with rfl | h'
        · exact ⟨hc.2, hc.1⟩
        · have := ih (acc ++ [s]) t h'
          refine ⟨fun hmem => this.1 (List.mem_append_left _ hmem), this.2⟩
      · rw [newTags, if_neg hc] at h
        exact ih acc t h
    | num n => exact ih acc t h
    | bool b => exact ih acc t h
    | null => exact ih acc t h
    | arr l' => exact ih acc t h
    | obj fs => exact ih acc t h

theorem newTags_nodup :
    ∀ (l : List JVal) (acc : List String), (newTags acc l).Nodup := by
  intro l
  induction l with
  | nil => intro acc; exact List.nodup_nil
  | cons hd ts ih =>
    intro acc
    cases hd with
    | str s =>
      by_cases hc : jsTrim s ≠ "" ∧ s ∉ acc
      · rw [newTags, if_pos hc]
        refine List.nodup_cons.mpr ⟨?_, ih (acc ++ [s])⟩
        intro hmem
        exact (newTags_mem ts (acc ++ [s]) s hmem).1
          (List.mem_append_right _ (List.mem_singleton_self s))
      · rw [newTags, if_neg hc]; exact ih acc
    | num n => exact ih acc
    | bool b => exact ih acc
    | null => exact ih acc
    | arr l' => exact ih acc
    | obj fs => exact ih acc

theorem newTags_sublist :
    ∀ (l : List JVal) (acc : List String),
    (newTags acc l).Sublist (l.filterMap strOfJVal) := by
  intro l
  induction l with
  | nil => intro acc; exact List.Sublist.refl []
  | cons hd ts ih =>
    intro acc
    cases hd with
    | str s =>
      rw [List.filterMap_cons]
      by_cases hc : jsTrim s ≠ "" ∧ s ∉ acc
      · rw [newTags, if_pos hc]
        exact List.Sublist.cons₂ s (ih (acc ++ [s]))
      · rw [newTags, if_neg hc]
        exact List.Sublist.cons s (ih acc)
    | num n => exact ih acc
    | bool b => exact ih acc
    | null => exact ih acc
    | arr l' => exact ih acc
    | obj fs => exact ih acc

theorem newTags_complete :
    ∀ (l : List JVal) (acc : List String) (t : String),
    JVal.str t ∈ l → jsTrim t ≠ "" → t ∉ acc → t ∈ newTags acc l := by
  intro l
  induction l with
  | nil => intro acc t h; cases h
  | cons hd ts ih =>
    intro acc t hmem htrim hacc
    rcases List.mem_cons.mp hmem with heq | hts
    · subst heq
      rw [newTags, if_pos ⟨htrim, hacc⟩]
      exact List.mem_cons_self t _
    · cases hd with
      | str s =>
        by_cases hc : jsTrim s ≠ "" ∧ s ∉ acc
        · rw [newTags, if_pos hc]
          by_cases hts' : t = s
          · subst hts'
            exact List.mem_cons_self t _
          · refine List.mem_cons_of_mem s (ih (acc ++ [s]) t hts htrim ?_)
            intro habs
            rcases List.mem_append.mp habs with h' | h'
            · exact hacc h'
            · exact hts' (List.mem_singleton.mp h')
        · rw [newTags, if_neg hc]
          exact ih acc t hts htrim hacc
      | num n => exact ih acc t hts htrim hacc
      | bool b => exact ih acc t hts htrim hacc
      | null => exact ih acc t hts htrim hacc
      | arr l' => exact ih acc t hts htrim hacc
      | obj fs => exact ih acc t hts htrim hacc

theorem mergeTags_characterize (defaults : List String) (v : JVal) :
    mergeTagsWithDefaults defaults v =
      defaults ++ newTags defaults (normalizeTags v) ∧
    (newTags defaults (normalizeTags v)).Nodup ∧
    (newTags defaults (normalizeTags v)).Sublist
      ((normalizeTags v).filterMap strOfJVal) ∧
    (∀ t ∈ newTags defaults (normalizeTags v), jsTrim t ≠ "" ∧ t ∉ defaults) ∧
    (∀ t : String, JVal.str t ∈ normalizeTags v → jsTrim t ≠ "" →
      t ∉ defaults → t ∈ newTags defaults (normalizeTags v)) := by
  refine ⟨mergeTagLoop_eq_append (normalizeTags v) defaults,
    newTags_nodup (normalizeTags v) defaults, newTags_sublist _ _, ?_, ?_⟩
  · intro t ht
    have := newTags_mem (normalizeTags v) defaults t ht
    exact ⟨this.2, this.1⟩
  · intro t hmem htrim hd
    exact newTags_complete (normalizeTags v) defaults t hmem htrim hd

/-! ## Claim theorems -/

/-- Template data with `content` equal to the literal text `{{x}}` and all
other fields inert, used to exercise the content-escaping path. -/
def braceData : TemplateData :=
  { content := "\x7b\x7bx\x7d\x7d", tags := [], filename := "f",
    absoluteFilePath := "p", relativeFilePath := "p", markdownLink := "l",
    dateProcessed := "d", pageCount := 1, modelUsed := "m",
    customVariables := [] }

/-- Variants of `braceData` exercising custom scalar and array variables. -/
def boomData : TemplateData := { braceData with customVariables := [("x", JVal.str "BOOM")] }

/-- `braceData` with a two-element custom array variable `items`. -/
def itemsData : TemplateData := { braceData with content := "c", customVariables := [("items", JVal.arr [JVal.str "a", JVal.str "b"])] }

/-- `braceData` with an empty custom array variable `items`. -/
def itemsEmptyData : TemplateData := { braceData with content := "c", customVariables := [("items", JVal.arr [])] }

/-- `braceData` with two top-level tags. -/
def tagsData : TemplateData := { braceData with tags := ["a", "b"] }

/-- C6 counterexample: rendering the template `{{content}}` over a context
whose content is the literal text `{{x}}` yields the backslash-escaped text
`\{\{x\}\}`; the original literal `{{x}}` does not occur in the output, so
the rendered output does not contain it unchanged. -/
theorem C6_counterexample :
    renderTemplate "\x7b\x7bcontent\x7d\x7d" braceData =
      "\\\x7b\\\x7bx\\\x7d\\\x7d" ∧
    ¬ ("\x7b\x7bx\x7d\x7d".data <:+:
      (renderTemplate "\x7b\x7bcontent\x7d\x7d" braceData).data) := by
  constructor
  · rfl
  · decide

/-- C6 amended: the renderer escapes the content field's `{{`/`}}` before
substitution, so brace sequences inside transcribed text are not treated as
substitution tokens — a custom variable `x` with value `BOOM` does not
replace the `{{x}}` coming from the content — but the rendered output
contains the backslash-escaped form `\{\{x\}\}` rather than the original
literal `{{x}}`. -/
theorem C6_escaping_amended :
    escapeContent "\x7b\x7bx\x7d\x7d" = "\\\x7b\\\x7bx\\\x7d\\\x7d" ∧
    renderTemplate "\x7b\x7bcontent\x7d\x7d" braceData =
      "\\\x7b\\\x7bx\\\x7d\\\x7d" ∧
    renderTemplate "\x7b\x7bcontent\x7d\x7d \x7b\x7bx\x7d\x7d" boomData =
      "\\\x7b\\\x7bx\\\x7d\\\x7d BOOM" := by
  refine ⟨by decide, by decide, by decide⟩

/-- C7: the failing input.  A custom array variable `items = ["a","b"]` at
the template position `key: {{items}}` is substituted by the unconditional
custom-variable scalar pass as the comma-joined string `a,b` (and an empty
custom array as the empty string), so the dedicated YAML-array branch never
sees the token; by contrast the top-level `tags` path (with `tags` absent
from the custom-variable bag) renders the YAML block sequence and `[]` that
the specification describes. -/
theorem C7_custom_array_scalar_bug :
    renderTemplate "key: \x7b\x7bitems\x7d\x7d" itemsData = "key: a,b" ∧
    renderTemplate "key: \x7b\x7bitems\x7d\x7d" itemsEmptyData = "key: " ∧
    renderTemplate "key: \x7b\x7bitems\x7d\x7d" itemsData ≠
      "key:\n  - a\n  - b" ∧
    renderTemplate "tags: \x7b\x7btags\x7d\x7d" tagsData =
      "tags: \n  - a\n  - b" ∧
    renderTemplate "tags: \x7b\x7btags\x7d\x7d" braceData = "tags: []" := by
  refine ⟨by decide, by decide, by decide, by decide, by decide⟩

/-- C5 counterexample: the merged tag list is not always de-duplicated —
duplicates already present among the configured defaults survive — and a
whitespace-only extracted tag is dropped rather than appended even though
it is not already present. -/
theorem C5_counterexample :
    mergeTagsWithDefaults ["a", "a"] (JVal.arr []) = ["a", "a"] ∧
    ¬ (mergeTagsWithDefaults ["a", "a"] (JVal.arr [])).Nodup ∧
    mergeTagsWithDefaults [] (JVal.arr [JVal.str " "]) = [] := by
  refine ⟨by decide, by decide, by decide⟩

/-- C5 amended: merging defaults `["a","b"]` with extracted `["b","c"]`
yields `["a","b","c"]`; in general the defaults come first and each
extracted entry that is a non-whitespace string not already present is
appended, so the result is duplicate-free whenever the configured defaults
are; duplicates among the defaults themselves are preserved. -/
theorem C5_merge_defaults :
    mergeTagsWithDefaults ["a", "b"] (JVal.arr [JVal.str "b", JVal.str "c"]) =
      ["a", "b", "c"] ∧
    ∀ (defaults : List String) (v : JVal), defaults.Nodup →
      (mergeTagsWithDefaults defaults v).Nodup := by
  refine ⟨by decide, ?_⟩
  intro d v hnd
  obtain ⟨h1, h2, _, h4, _⟩ := mergeTags_characterize d v
  rw [h1]
  refine List.Nodup.append hnd h2 ?_
  intro a had has
  exact (h4 a has).2 had

/-- Witness for the amended C5 at a concrete input. -/
theorem C5_witness :
    (mergeTagsWithDefaults ["x", "y"] (JVal.str "y")).Nodup :=
  C5_merge_defaults.2 ["x", "y"] (JVal.str "y") (by decide)

/-- C10: the merged list is the configured defaults verbatim (duplicates
included) followed by a duplicate-free selection of the extracted entries,
in source order (a sublist of the string entries of the normalized
extracted value); an entry is appended exactly when it is a string that is
non-empty after trimming and not already present; non-string or
whitespace-only entries are silently dropped. -/
theorem C10_merge_structure :
    ∀ (defaults : List String) (v : JVal), ∃ s : List String,
      mergeTagsWithDefaults defaults v = defaults ++ s ∧
      s.Nodup ∧
      s.Sublist ((normalizeTags v).filterMap strOfJVal) ∧
      (∀ t ∈ s, jsTrim t ≠ "" ∧ t ∉ defaults) ∧
      (∀ t : String, JVal.str t ∈ normalizeTags v → jsTrim t ≠ "" →
        t ∉ defaults → t ∈ s) := by
  intro defaults v
  obtain ⟨h1, h2, h3, h4, h5⟩ := mergeTags_characterize defaults v
  exact ⟨_, h1, h2, h3, h4, h5⟩

/-- Witness for C10 at a concrete input: a new valid tag is appended, and
the result extends the defaults on the left. -/
theorem C10_witness :
    ∃ s : List String,
      mergeTagsWithDefaults ["a"]
        (JVal.arr [JVal.str "x", JVal.num 3, JVal.str " ", JVal.str "a"]) =
        ["a"] ++ s ∧ "x" ∈ s := by
  obtain ⟨s, h1, _, _, _, h5⟩ := C10_merge_structure ["a"]
    (JVal.arr [JVal.str "x", JVal.num 3, JVal.str " ", JVal.str "a"])
  refine ⟨s, h1, h5 "x" (List.mem_cons_self _ _) (by decide) (by decide)⟩

/-- C9 counterexample: the render stage reads the wall clock.  Two runs on
the same inputs at different instants produce different filenames and
different note bodies whenever a template references `dateProcessed`, so
outputs are not byte-identical across runs. -/
theorem C9_counterexample :
    generateFilename "\x7b\x7bdateProcessed\x7d\x7d" "f.png" []
        ⟨"2024-01-01T00:00:00.000Z", 0⟩ ≠
      generateFilename "\x7b\x7bdateProcessed\x7d\x7d" "f.png" []
        ⟨"2024-01-02T09:30:00.000Z", 34200⟩ ∧
    renderTemplate "\x7b\x7bdateProcessed\x7d\x7d"
        (createTemplateData "c" [] "f" "p" "l" 1 "m" [] []
          ⟨"2024-01-01T00:00:00.000Z", 0⟩) ≠
      renderTemplate "\x7b\x7bdateProcessed\x7d\x7d"
        (createTemplateData "c" [] "f" "p" "l" 1 "m" [] []
          ⟨"2024-01-02T09:30:00.000Z", 34200⟩) := by
  constructor
  · decide
  · decide

/-- C9 amended: the extraction-to-render stage is deterministic given the
clock reading — two runs with the same structured result, templates,
settings and the same processing timestamp produce byte-identical note
content and filenames. -/
theorem C9_render_deterministic :
    ∀ (template content filename filePath markdownLink modelUsed
        ftpl ofn : String) (tags : List String) (pageCount : Int)
      (customVars extractedVars : List (String × JVal)) (now₁ now₂ : JsDate),
      now₁.iso = now₂.iso →
      now₁.secondsSinceMidnight = now₂.secondsSinceMidnight →
      renderTemplate template
          (createTemplateData content tags filename filePath markdownLink
            pageCount modelUsed customVars extractedVars now₁) =
        renderTemplate template
          (createTemplateData content tags filename filePath markdownLink
            pageCount modelUsed customVars extractedVars now₂) ∧
      generateFilename ftpl ofn customVars now₁ =
        generateFilename ftpl ofn customVars now₂ := by
  intro _ _ _ _ _ _ _ _ _ _ _ _ now₁ now₂ hiso hsec
  cases now₁
  cases now₂
  simp only at hiso hsec
  subst hiso
  subst hsec
  exact ⟨rfl, rfl⟩

/-- Witness for the amended C9 at a concrete input. -/
theorem C9_witness :
    renderTemplate "\x7b\x7bcontent\x7d\x7d"
        (createTemplateData "c" [] "f" "p" "l" 1 "m" [] [] ⟨"t", 5⟩) =
      renderTemplate "\x7b\x7bcontent\x7d\x7d"
        (createTemplateData "c" [] "f" "p" "l" 1 "m" [] [] ⟨"t", 5⟩) :=
  (C9_render_deterministic "\x7b\x7bcontent\x7d\x7d" "c" "f" "p" "l" "m"
    "\x7b\x7bbaseName\x7d\x7d.md" "f.png" [] 1 [] [] ⟨"t", 5⟩ ⟨"t", 5⟩
    rfl rfl).1

/-- C3: response parsing.  (1)/(2) an absent or empty reply throws
`'No response text received'`; (3) otherwise the reply is decoded from the
fenced-block candidate after brace slicing; (4) a ` ```json ` fence with a
closing marker is preferred — its inside, trimmed, becomes the candidate;
(5) with no ` ```json ` marker, a closed plain ` ``` ` fence is used;
(6) with no fence marker at all the raw text is the candidate; (7) the
candidate is sliced from its first `{` to its last `}` when the first
strictly precedes the last; (8) the reply
`"Sure! ```json\n{"content":"hi"}\n```"` with no configured variable specs
yields `{content := "hi", extractedVariables := []}`; (9) a reply with no
JSON at all is a parse failure. -/
theorem C3_parse_response :
    parseJSONResponse none = .error "No response text received" ∧
    parseJSONResponse (some "") = .error "No response text received" ∧
    (∀ t : String, t ≠ "" →
      parseJSONResponse (some t) = jsonParse (braceSlice (fenceSlice t))) ∧
    (∀ (t : String) (i e : Nat), jsIndexOfFrom t "```json" 0 = some i →
      jsIndexOfFrom t "```" (i + 7) = some e →
      fenceSlice t = jsTrim (jsSubstring t (i + 7) e)) ∧
    (∀ (t : String) (i e : Nat), jsIndexOfFrom t "```json" 0 = none →
      jsIndexOfFrom t "```" 0 = some i →
      jsIndexOfFrom t "```" (i + 3) = some e →
      fenceSlice t = jsTrim (jsSubstring t (i + 3) e)) ∧
    (∀ t : String, jsIndexOfFrom t "```json" 0 = none →
      jsIndexOfFrom t "```" 0 = none → fenceSlice t = t) ∧
    (∀ (s : String) (i j : Nat), s.data.findIdx? (· == '\x7b') = some i →
      (s.data.reverse.findIdx? (· == '\x7d')).map
        (fun k => s.data.length - 1 - k) = some j →
      i < j → braceSlice s = jsSubstring s i (j + 1)) ∧
    extractStructuredTextFromImage
      (some "Sure! ```json\n\x7b\"content\":\"hi\"\x7d\n```") [] =
      .ok ⟨"hi", []⟩ ∧
    (∃ m, parseJSONResponse (some "I could not read the image.") =
      .error m) := by
  refine ⟨rfl, rfl, ?_, ?_, ?_, ?_, ?_, rfl, ⟨_, rfl⟩⟩
  · intro t ht
    simp only [parseJSONResponse, if_neg ht]
  · intro t i e h1 h2
    simp only [fenceSlice, h1, h2]
  · intro t i e h0 h1 h2
    simp only [fenceSlice, h0, h1, h2]
  · intro t h0 h1
    simp only [fenceSlice, h0, h1]
  · intro s i j h1 h2 h3
    simp only [braceSlice, h1, h2, if_pos h3]

/-- Witness for C3 at concrete inputs: the example reply's candidate is the
trimmed inside of its json fence, a fence-free reply is decoded from the
raw text after brace slicing, and the first-brace/last-brace slice fires on
a commented reply. -/
theorem C3_witness :
    fenceSlice "Sure! ```json\n\x7b\"content\":\"hi\"\x7d\n```" =
      jsTrim (jsSubstring "Sure! ```json\n\x7b\"content\":\"hi\"\x7d\n```"
        13 31) ∧
    parseJSONResponse (some "I could not read the image.") =
      jsonParse (braceSlice (fenceSlice "I could not read the image.")) ∧
    braceSlice "junk \x7b\"content\":\"ok\"\x7d more" =
      jsSubstring "junk \x7b\"content\":\"ok\"\x7d more" 5 21 := by
  refine ⟨?_, ?_, ?_⟩
  · exact C3_parse_response.2.2.2.1
      "Sure! ```json\n\x7b\"content\":\"hi\"\x7d\n```" 6 31
      (by decide) (by decide)
  · exact C3_parse_response.2.2.1 "I could not read the image." (by decide)
  · exact C3_parse_response.2.2.2.2.2.2.1
      "junk \x7b\"content\":\"ok\"\x7d more" 5 20 (by decide) (by decide)
      (by decide)

/-- Number of workers the startup loop actually creates. -/
theorem afterStartup_workers_length (files : List TFile) (w : Int) :
    (afterStartup files w).workers.length =
      startedWorkerCount w files.length := by
  obtain ⟨_, _, _, _, hw, _⟩ := afterStartup_startupOK files w
  rw [hw, List.length_map, List.length_take]
  unfold startedWorkerCount
  omega

/-- C4 amended: the startup loop runs `min(workers, files.length)`
iterations with the minimum taken after flooring negative counts at zero:
the started-worker count never exceeds the file count, equals the
configured count whenever that lies in `[1, file count]`, and is zero — not
one — when the configured count is zero or negative, even for a non-empty
file list. -/
theorem C4_worker_clamp :
    ∀ (files : List TFile) (w : Int),
      (afterStartup files w).workers.length = min w.toNat files.length ∧
      (afterStartup files w).workers.length ≤ files.length ∧
      (1 ≤ w → w.toNat ≤ files.length →
        (afterStartup files w).workers.length = w.toNat) ∧
      (1 ≤ w → files.length ≤ w.toNat →
        (afterStartup files w).workers.length = files.length) ∧
      (w ≤ 0 → (afterStartup files w).workers.length = 0) := by
  intro files w
  have h := afterStartup_workers_length files w
  unfold startedWorkerCount at h
  refine ⟨h, by omega, fun _ h2 => by omega, fun _ h2 => by omega,
    fun h1 => by omega⟩

/-- C4 counterexample: with a configured worker count of `-3` (and likewise
`0`) and one input file, no worker is started at all — the count is not
clamped up to 1. -/
theorem C4_counterexample :
    (afterStartup [⟨"a.png", "a.png"⟩] (-3)).workers.length = 0 ∧
    (afterStartup [⟨"a.png", "a.png"⟩] 0).workers.length = 0 ∧
    0 < ([⟨"a.png", "a.png"⟩] : List TFile).length := by
  refine ⟨by decide, by decide, by decide⟩

/-- Witness for the amended C4 at concrete inputs. -/
theorem C4_witness :
    (afterStartup [⟨"a.png", "a.png"⟩] 5).workers.length = 1 :=
  (C4_worker_clamp [⟨"a.png", "a.png"⟩] 5).2.2.2.1 (by decide) (by decide)

/-- Shared concrete batch run: two files, one worker, all successful. -/
def wfA : TFile := ⟨"a.png", "a.png"⟩

/-- Second input file of the concrete run. -/
def wfB : TFile := ⟨"b.png", "b.png"⟩

/-- Per-file outcome used in the concrete run. -/
def ocOK : TFile → ProcessingResult :=
  fun f => { success := true, filePath := some ("Handwritten Notes/" ++ f.name) }

/-- The single-worker run over `[wfA, wfB]`, executed to completion (the
schedule is deterministic with one worker): the worker's `processNext` tail
and its loop continuation alternate. -/
def runAB : BatchState :=
  loopWorker 0 (finishWorker ocOK 0 wfB
    (loopWorker 0 (finishWorker ocOK 0 wfA (afterStartup [wfA, wfB] 1))))

theorem reach_runAB : BatchReach ocOK (afterStartup [wfA, wfB] 1) runAB := by
  have h1 : BatchStep ocOK (afterStartup [wfA, wfB] 1)
      (finishWorker ocOK 0 wfA (afterStartup [wfA, wfB] 1)) :=
    BatchStep.finish 0 wfA _ (by decide)
  have h2 : BatchStep ocOK
      (finishWorker ocOK 0 wfA (afterStartup [wfA, wfB] 1))
      (loopWorker 0 (finishWorker ocOK 0 wfA (afterStartup [wfA, wfB] 1))) :=
    BatchStep.loop 0 _ (by decide)
  have h3 : BatchStep ocOK
      (loopWorker 0 (finishWorker ocOK 0 wfA (afterStartup [wfA, wfB] 1)))
      (finishWorker ocOK 0 wfB
        (loopWorker 0 (finishWorker ocOK 0 wfA (afterStartup [wfA, wfB] 1)))) :=
    BatchStep.finish 0 wfB _ (by decide)
  have h4 : BatchStep ocOK
      (finishWorker ocOK 0 wfB
        (loopWorker 0 (finishWorker ocOK 0 wfA (afterStartup [wfA, wfB] 1))))
      runAB :=
    BatchStep.loop 0 _ (by decide)
  exact Relation.ReflTransGen.tail (Relation.ReflTransGen.tail
    (Relation.ReflTransGen.tail
      (Relation.ReflTransGen.tail Relation.ReflTransGen.refl h1) h2) h3) h4

/-- C1 amended: for a configured worker count of at least one, whenever
`Promise.all` settles (every started worker finished), the result map's key
list is duplicate-free and its key set equals the set of input paths — no
omissions, no extras — and the shared queue is exhausted at that point.
(With a non-positive worker count no worker starts and the batch settles
immediately with an empty map; see the counterexample.) -/
theorem C1_batch_key_set :
    ∀ (files : List TFile) (w : Int) (oc : TFile → ProcessingResult)
      (st : BatchState), 1 ≤ w →
      BatchReach oc (afterStartup files w) st → allFinished st →
      (st.results.map Prod.fst).Nodup ∧
      (∀ p, p ∈ st.results.map Prod.fst ↔ p ∈ files.map TFile.path) ∧
      st.queue = [] := by
  intro files w oc st hw hreach hfin
  obtain ⟨hq, hnd, hiff, _⟩ := batch_final_facts files oc w st hw hreach hfin
  exact ⟨hnd, hiff, hq⟩

/-- Witness for the amended C1 on the concrete two-file single-worker run:
both input paths are keys of the settled map and the queue is empty. -/
theorem C1_witness :
    ("a.png" ∈ runAB.results.map Prod.fst ∧
     "b.png" ∈ runAB.results.map Prod.fst) ∧ runAB.queue = [] := by
  obtain ⟨hnd, hiff, hq⟩ := C1_batch_key_set [wfA, wfB] 1 ocOK runAB
    (by decide) reach_runAB (by decide)
  exact ⟨⟨(hiff "a.png").mpr (by decide), (hiff "b.png").mpr (by decide)⟩, hq⟩

/-- C1 counterexample: with a configured worker count of zero and one input
file, the batch is already settled at startup (no worker promises exist,
so `Promise.all([])` resolves) with an empty result map, while the input
path set is non-empty — the key set does not equal the input path set. -/
theorem C1_counterexample :
    allFinished (afterStartup [wfA] 0) ∧
    (afterStartup [wfA] 0).results.map Prod.fst = [] ∧
    "a.png" ∈ [wfA].map TFile.path := by
  refine ⟨by decide, by decide, by decide⟩

/-- C8 amended: in every reachable state of a batch run, every emitted
pre-pop snapshot has `current = completedAt + startedAt`, where `startedAt`
is the number of worker promises started at emission time
(`processing.size`); this is `completedAt + inFlightAt` for the snapshots
of the startup round and at least `completedAt + inFlightAt + 1` for pops
by a resumed worker — it can exceed `completedAt + inFlightAt + 1`, and
even exceed `total`, when several workers' completions interleave between
one worker's completion and its next pop (see the counterexample).  Every
post-completion snapshot has `current = completedAt`, an empty
`currentFile`, and `current ≤ total`; every snapshot's `total` is the file
count. -/
theorem C8_progress_snapshots :
    ∀ (files : List TFile) (w : Int) (oc : TFile → ProcessingResult)
      (st : BatchState), BatchReach oc (afterStartup files w) st →
      ∀ e ∈ st.trace,
        (e.isPre = true →
          e.snap.current = e.completedAt + e.startedAt ∧
          (e.snap.current = e.completedAt + e.inFlightAt ∨
           e.completedAt + e.inFlightAt + 1 ≤ e.snap.current)) ∧
        (e.isPre = false →
          e.snap.current = e.completedAt ∧ e.snap.currentFile = "" ∧
          e.snap.current ≤ e.snap.total) ∧
        e.snap.total = files.length := by
  intro files w oc st hreach e he
  obtain ⟨_, _, _, _, _, _, _, htr⟩ := batch_reachable_inv files oc w st hreach
  obtain ⟨h1, h2, h3⟩ := htr e he
  refine ⟨h2, ?_, h1⟩
  intro hpost
  obtain ⟨ha, hb, hc⟩ := h3 hpost
  exact ⟨ha, hb, h1 ▸ hc⟩

/-- Witness for the amended C8 on the concrete run: the third emitted
snapshot (the pre-pop for the second file) satisfies
`current = completedAt + startedAt` with `current = 2`. -/
theorem C8_witness :
    ∃ e ∈ runAB.trace, e.isPre = true ∧
      e.snap.current = e.completedAt + e.startedAt ∧ e.snap.current = 2 := by
  refine ⟨⟨⟨2, 2, "b.png"⟩, true, 1, 0, 1⟩, by decide, rfl, ?_, rfl⟩
  exact ((C8_progress_snapshots [wfA, wfB] 1 ocOK runAB reach_runAB _
    (by decide)).1 rfl).1

/-- Input files for the three-worker, five-file schedule. -/
def wf5 : List TFile :=
  [⟨"f1", "f1"⟩, ⟨"f2", "f2"⟩, ⟨"f3", "f3"⟩, ⟨"f4", "f4"⟩, ⟨"f5", "f5"⟩]

/-- The schedule in which all three first `processFile` promises settle
before any worker's loop continuation runs: the three `processNext` tails
execute, then worker 0's loop continuation pops the fourth file. -/
def run35 : BatchState :=
  loopWorker 0 (finishWorker ocOK 2 ⟨"f3", "f3"⟩
    (finishWorker ocOK 1 ⟨"f2", "f2"⟩
      (finishWorker ocOK 0 ⟨"f1", "f1"⟩ (afterStartup wf5 3))))

theorem reach_run35 : BatchReach ocOK (afterStartup wf5 3) run35 := by
  have h1 : BatchStep ocOK (afterStartup wf5 3)
      (finishWorker ocOK 0 ⟨"f1", "f1"⟩ (afterStartup wf5 3)) :=
    BatchStep.finish 0 ⟨"f1", "f1"⟩ _ (by decide)
  have h2 : BatchStep ocOK
      (finishWorker ocOK 0 ⟨"f1", "f1"⟩ (afterStartup wf5 3))
      (finishWorker ocOK 1 ⟨"f2", "f2"⟩
        (finishWorker ocOK 0 ⟨"f1", "f1"⟩ (afterStartup wf5 3))) :=
    BatchStep.finish 1 ⟨"f2", "f2"⟩ _ (by decide)
  have h3 : BatchStep ocOK
      (finishWorker ocOK 1 ⟨"f2", "f2"⟩
        (finishWorker ocOK 0 ⟨"f1", "f1"⟩ (afterStartup wf5 3)))
      (finishWorker ocOK 2 ⟨"f3", "f3"⟩
        (finishWorker ocOK 1 ⟨"f2", "f2"⟩
          (finishWorker ocOK 0 ⟨"f1", "f1"⟩ (afterStartup wf5 3)))) :=
    BatchStep.finish 2 ⟨"f3", "f3"⟩ _ (by decide)
  have h4 : BatchStep ocOK
      (finishWorker ocOK 2 ⟨"f3", "f3"⟩
        (finishWorker ocOK 1 ⟨"f2", "f2"⟩
          (finishWorker ocOK 0 ⟨"f1", "f1"⟩ (afterStartup wf5 3))))
      run35 :=
    BatchStep.loop 0 _ (by decide)
  exact Relation.ReflTransGen.tail (Relation.ReflTransGen.tail
    (Relation.ReflTransGen.tail
      (Relation.ReflTransGen.tail Relation.ReflTransGen.refl h1) h2) h3) h4

/-- C8 counterexample: a real schedule refuting the claim.  With three
workers and five files, when all three outstanding `processFile` promises
settle before any worker's loop continuation runs (their `processNext`
tails execute back to back, each merely queueing its worker's loop
continuation behind the others), worker 0's subsequent pre-pop snapshot
reports `current = completed + processing.size = 3 + 3 = 6` while
`completed + inFlight = 3 + 0` and `total = 5` — so `current` matches
neither `completed + inFlight` nor `completed + inFlight + 1`, and exceeds
`total`. -/
theorem C8_counterexample :
    BatchReach ocOK (afterStartup wf5 3) run35 ∧
    (∃ e ∈ run35.trace, e.isPre = true ∧ e.snap.current = 6 ∧
      e.snap.total = 5 ∧ e.completedAt = 3 ∧ e.inFlightAt = 0) ∧
    ¬ (∀ e ∈ run35.trace, e.isPre = true →
        e.snap.current = e.completedAt + e.inFlightAt) ∧
    ¬ (∀ e ∈ run35.trace, e.isPre = true →
        e.snap.current = e.completedAt + e.inFlightAt + 1) ∧
    ¬ (∀ e ∈ run35.trace, e.snap.current ≤ e.snap.total) := by
  refine ⟨reach_run35, by decide, by decide, by decide, by decide⟩

/-- Every `processFile` call returns either a success carrying an output
path or a failure carrying an error message — the model-level form of the
per-file `try`/`catch` boundary. -/
theorem processFile_shape (s : HandwriteSettingsM) (ext : String)
    (io : FileIO) :
    (∃ p, processFile s ext io =
      { success := true, filePath := some p, error := none }) ∨
    (∃ m, processFile s ext io =
      { success := false, filePath := none, error := some m }) := by
  simp only [processFile, geminiExtract, moveSourceFileWrapped]
  repeat' split
  all_goals first
    | exact Or.inl ⟨_, rfl⟩
    | exact Or.inr ⟨_, rfl⟩

/-- C2 amended: every error raised during one file's processing is caught
at the per-file boundary and converted into a failed `ProcessingResult`
whose `error` is the raised error's own message (`'Unknown error'` for a
non-`Error` value): unsupported extensions are rejected with
`Unsupported file type: <ext>`; a read failure propagates the thrown
message verbatim (so it is empty exactly when the thrown `Error`'s message
is — see the counterexample); an extraction failure is wrapped as
`Failed to process image/PDF: …`, which is never empty; blank extracted
content fails with `No text extracted from file`; a note-write failure
propagates the thrown message; a source-move failure is wrapped as
`Failed to move file: …`, never empty.  `processFile` always returns a
`ProcessingResult` (failures have a `some` error, successes an output path
and no error), and in a settled batch over distinct paths every file's
recorded outcome is exactly its own, regardless of other files'
failures. -/
theorem C2_processFile_boundary :
    ∀ (s : HandwriteSettingsM) (extension : String) (io : FileIO),
      (isSupportedFile (jsToLower extension) = false →
        processFile s extension io =
          { success := false, filePath := none,
            error := some ("Unsupported file type: " ++ jsToLower extension) }) ∧
      (∀ e, isSupportedFile (jsToLower extension) = true →
        io.readBinary = Except.error e →
        processFile s extension io =
          { success := false, filePath := none,
            error := some (caughtMessage e) }) ∧
      (∀ e, isSupportedFile (jsToLower extension) = true →
        io.readBinary = Except.ok () →
        io.geminiRaw = Except.error e →
        processFile s extension io =
          { success := false, filePath := none,
            error := some ((if jsToLower extension = "pdf" then
                "Failed to process PDF: " else "Failed to process image: ")
              ++ jsThrownToString e) } ∧
        ((if jsToLower extension = "pdf" then "Failed to process PDF: "
            else "Failed to process image: ") ++ jsThrownToString e) ≠ "") ∧
      (∀ r, isSupportedFile (jsToLower extension) = true →
        io.readBinary = Except.ok () →
        io.geminiRaw = Except.ok r →
        jsTrim r.content = "" →
        processFile s extension io =
          { success := false, filePath := none,
            error := some "No text extracted from file" }) ∧
      (∀ r e, isSupportedFile (jsToLower extension) = true →
        io.readBinary = Except.ok () →
        io.geminiRaw = Except.ok r →
        jsTrim r.content ≠ "" →
        io.createNote = Except.error e →
        processFile s extension io =
          { success := false, filePath := none,
            error := some (caughtMessage e) }) ∧
      (∀ r p e, isSupportedFile (jsToLower extension) = true →
        io.readBinary = Except.ok () →
        io.geminiRaw = Except.ok r →
        jsTrim r.content ≠ "" →
        io.createNote = Except.ok p →
        s.moveFilesAfterProcessing = true →
        io.moveRaw = Except.error e →
        processFile s extension io =
          { success := false, filePath := none,
            error := some ("Failed to move file: " ++ thrownMessageProp e) } ∧
        ("Failed to move file: " ++ thrownMessageProp e) ≠ "") ∧
      ((processFile s extension io).success = false →
        ∃ m, (processFile s extension io).error = some m) ∧
      ((processFile s extension io).success = true →
        (processFile s extension io).error = none ∧
        ∃ p, (processFile s extension io).filePath = some p) ∧
      (∀ (files : List TFile) (oc : TFile → ProcessingResult) (w : Int)
          (st : BatchState) (f : TFile), 1 ≤ w →
        (files.map TFile.path).Nodup →
        BatchReach oc (afterStartup files w) st → allFinished st →
        f ∈ files → lookupResult st.results f.path = some (oc f)) := by
  intro s extension io
  refine ⟨?_, ?_, ?_, ?_, ?_, ?_, ?_, ?_, ?_⟩
  · intro h
    simp [processFile, h]
  · intro e h hrb
    simp [processFile, h, hrb]
  · intro e h hrb hg
    constructor
    · simp [processFile, geminiExtract, h, hrb, hg, caughtMessage]
    · intro habs
      have h0 : ("" : String).length = 0 := rfl
      by_cases hpdf : jsToLower extension = "pdf"
      · rw [if_pos hpdf] at habs
        have hlen := congrArg String.length habs
        rw [String.length_append, h0] at hlen
        have hpos : 0 < ("Failed to process PDF: " : String).length := by decide
        omega
      · rw [if_neg hpdf] at habs
        have hlen := congrArg String.length habs
        rw [String.length_append, h0] at hlen
        have hpos : 0 < ("Failed to process image: " : String).length := by
          decide
        omega
  · intro r h hrb hg hc
    simp [processFile, geminiExtract, h, hrb, hg, hc]
  · intro r e h hrb hg hc hcn
    simp [processFile, geminiExtract, h, hrb, hg, hc, hcn]
  · intro r p e h hrb hg hc hcn hmv hmr
    constructor
    · simp [processFile, geminiExtract, moveSourceFileWrapped, h, hrb, hg,
        hc, hcn, hmv, hmr, caughtMessage]
    · intro habs
      have h0 : ("" : String).length = 0 := rfl
      have hlen := congrArg String.length habs
      rw [String.length_append, h0] at hlen
      have hpos : 0 < ("Failed to move file: " : String).length := by decide
      omega
  · intro hfail
    rcases processFile_shape s extension io with ⟨p, hp⟩ | ⟨m, hm⟩
    · rw [hp] at hfail
      cases hfail
    · rw [hm]
      exact ⟨m, rfl⟩
  · intro hsucc
    rcases processFile_shape s extension io with ⟨p, hp⟩ | ⟨m, hm⟩
    · rw [hp]
      exact ⟨rfl, p, rfl⟩
    · rw [hm] at hsucc
      cases hsucc
  · intro files oc w st f hw hnd hreach hfin hf
    obtain ⟨_, _, _, hlook⟩ := batch_final_facts files oc w st hw hreach hfin
    exact hlook f hf hnd

/-- C2 counterexample: a read failure whose thrown `Error` carries an empty
message is converted to a failed result whose error string is empty — not
the non-empty human-readable string the claim asserts for every error. -/
theorem C2_counterexample :
    (processFile ⟨false, false⟩ "png"
      ⟨Except.error (JsThrown.errObj ""), Except.ok ⟨"x", []⟩,
        Except.ok "p", Except.ok ()⟩).error = some "" ∧
    (processFile ⟨false, false⟩ "png"
      ⟨Except.error (JsThrown.errObj ""), Except.ok ⟨"x", []⟩,
        Except.ok "p", Except.ok ()⟩).success = false := by
  exact ⟨rfl, rfl⟩

/-- Witness for the amended C2 at a concrete input: a read failure with
message `boom` yields a failed result carrying `boom`. -/
theorem C2_witness :
    processFile ⟨false, false⟩ "png"
      ⟨Except.error (JsThrown.errObj "boom"), Except.ok ⟨"x", []⟩,
        Except.ok "p", Except.ok ()⟩ =
      { success := false, filePath := none, error := some "boom" } :=
  (C2_processFile_boundary ⟨false, false⟩ "png"
    ⟨Except.error (JsThrown.errObj "boom"), Except.ok ⟨"x", []⟩,
      Except.ok "p", Except.ok ()⟩).2.1 (JsThrown.errObj "boom")
    (by decide) rfl

end Handwrite
